import Mathlib

/-!
# Verification of the snapshot-editor write path of a normalized graph cache

This development shallowly embeds `src/operations/SnapshotEditor.ts` — the
write transaction of a normalized, immutable graph cache — and proves (or
refutes) the specification's claims about it.

Utilities that the editor imports (`walkPayload`, `addNodeReference`,
`removeNodeReference`, `lazyImmutableDeepSet`, `expandEdgeArguments`, …) and
the `GraphSnapshot` / `NodeSnapshot` classes are not part of the provided
sources; they are modelled from the specification and marked as such.
-/

namespace Hermes

/-- A node identifier: an opaque string (`NodeId` in `schema.ts`). -/
abbrev NodeId := String

/-- One step of a path inside a node's value tree (`PathPart` in
`primitive.ts`): a string field name or a numeric array index. -/
inductive PathPart where
  | field (name : String)
  | index (i : Nat)
deriving DecidableEq, Repr

/-- A dynamic JavaScript/JSON value, as stored in payloads and node value
trees.  `vUndef` models JavaScript's `undefined` (absent fields, array
holes); objects are insertion-ordered association lists, as in JS. -/
inductive Value where
  | vNull
  | vUndef
  | vBool (b : Bool)
  | vInt (n : Int)
  | vStr (s : String)
  | vArr (elems : List Value)
  | vObj (fields : List (String × Value))
deriving Repr

namespace Value

/-- JavaScript truthiness of a value. -/
def truthy : Value → Bool
  | .vNull => false
  | .vUndef => false
  | .vBool b => b
  | .vInt n => n != 0
  | .vStr s => s ≠ ""
  | .vArr _ => true
  | .vObj _ => true

/-- Modelled from the spec: `isObject` from `util` (not under `src/`) —
`typeof v === 'object' && v !== null`, so plain objects and arrays. -/
def isObject : Value → Bool
  | .vObj _ => true
  | .vArr _ => true
  | _ => false

/-- Modelled from the spec: `isScalar` from `util` (not under `src/`) —
anything that is not an object or array. -/
def isScalar (v : Value) : Bool := !v.isObject

def isArr : Value → Bool
  | .vArr _ => true
  | _ => false

/-- Property lookup `v[k]` for a string key; `undefined` when absent or not
an object (mirrors JS property access). -/
def objGet : Value → String → Value
  | .vObj fields, k => (fields.lookup k).getD .vUndef
  | _, _ => (.vUndef)

/-- Index lookup `v[i]`; `undefined` when out of range or not an array. -/
def idxGet : Value → Nat → Value
  | .vArr xs, i => xs.getD i .vUndef
  | _, _ => (.vUndef)

/-- `v.length` as a JS value: defined for arrays and strings only. -/
def jsLength : Value → Value
  | .vArr xs => .vInt xs.length
  | .vStr s => .vInt s.length
  | .vObj fields => (fields.lookup "length").getD .vUndef
  | _ => (.vUndef)

/-- JavaScript strict equality `===`, as the editor uses it: it is only ever
applied with a scalar on (at least) one side (`isScalar(payloadValue)` guards
the comparison), where `===` is structural; two objects/arrays compare by
object identity, which distinct trees in a payload-vs-store comparison never
share, so those cases are `false`. -/
def jsStrictEq : Value → Value → Bool
  | .vNull, .vNull => true
  | .vUndef, .vUndef => true
  | .vBool a, .vBool b => a == b
  | .vInt a, .vInt b => a == b
  | .vStr a, .vStr b => a == b
  | _, _ => false

/-- `String(v)` conversion for scalar ids. -/
def jsToString : Value → String
  | .vNull => "null"
  | .vUndef => "undefined"
  | .vBool true => "true"
  | .vBool false => "false"
  | .vInt n => toString n
  | .vStr s => s
  | .vArr _ => ""
  | .vObj _ => "[object Object]"

end Value

/-- Set a key in an insertion-ordered object field list: an existing key is
updated in place (keeping its position), a new key is appended — JS object
assignment semantics. -/
def objFieldsSet : List (String × Value) → String → Value → List (String × Value)
  | [], k, v => [(k, v)]
  | (k', v') :: rest, k, v =>
    if k' = k then (k', v) :: rest else (k', v') :: objFieldsSet rest k v

/-- Set index `i` of an array element list, padding with `undefined` holes
when `i` is beyond the current length — JS array index assignment. -/
def arrElemsSet : List Value → Nat → Value → List Value
  | [], 0, v => [v]
  | [], i + 1, v => .vUndef :: arrElemsSet [] i v
  | _ :: rest, 0, v => v :: rest
  | x :: rest, i + 1, v => x :: arrElemsSet rest i v

/-- Modelled from the spec: `lazyImmutableDeepSet` from `util` (not under
`src/`), §4.6 of the spec.  The result equals the current tree with `path`
reassigned; intermediate containers are created as mappings or arrays to
match the step kind.  (The copy-on-write aliasing bookkeeping of the source
is unobservable in a pure embedding; only the resulting tree is modelled.) -/
def deepSet : Value → List PathPart → Value → Value
  | _, [], v => v
  | cur, .field k :: rest, v =>
    match cur with
    | .vObj fields => .vObj (objFieldsSet fields k (deepSet (cur.objGet k) rest v))
    | _ => .vObj [(k, deepSet .vUndef rest v)]
  | cur, .index i :: rest, v =>
    match cur with
    | .vArr xs => .vArr (arrElemsSet xs i (deepSet (cur.idxGet i) rest v))
    | _ => .vArr (arrElemsSet [] i (deepSet .vUndef rest v))

def Value.isUndef : Value → Bool
  | .vUndef => true
  | _ => false

/-! ## JSON serialization (`JSON.stringify`), used for parameterized ids -/

def jsonEscapeChars : List Char → List Char
  | [] => []
  | c :: rest =>
    if c = '"' then '\\' :: '"' :: jsonEscapeChars rest
    else if c = '\\' then '\\' :: '\\' :: jsonEscapeChars rest
    else c :: jsonEscapeChars rest

/-- JSON string escaping (quote and backslash; the repository's ids never
contain control characters). -/
def jsonEscape (s : String) : String := ⟨jsonEscapeChars s.data⟩

def jsonQuote (s : String) : String := "\"" ++ jsonEscape s ++ "\""

def commaJoin : List String → String
  | [] => ""
  | [x] => x
  | x :: rest => x ++ "," ++ commaJoin rest

mutual

/-- `JSON.stringify` of a value: objects serialize their fields in insertion
order (as JavaScript does); `undefined` becomes `null` inside arrays and is
omitted as an object field. -/
def jsonOfValue : Value → String
  | .vNull => "null"
  | .vUndef => "null"
  | .vBool true => "true"
  | .vBool false => "false"
  | .vInt n => toString n
  | .vStr s => jsonQuote s
  | .vArr xs => "[" ++ commaJoin (jsonItems xs) ++ "]"
  | .vObj fs => "\x7b" ++ commaJoin (jsonFieldItems fs) ++ "\x7d"

def jsonItems : List Value → List String
  | [] => []
  | x :: rest => jsonOfValue x :: jsonItems rest

def jsonFieldItems : List (String × Value) → List String
  | [] => []
  | (k, v) :: rest =>
    if v.isUndef then jsonFieldItems rest
    else (jsonQuote k ++ ":" ++ jsonOfValue v) :: jsonFieldItems rest

end

def jsonOfPathPart : PathPart → String
  | .field name => jsonQuote name
  | .index i => toString i

/-- `JSON.stringify(path)` for a path array. -/
def jsonOfPath (path : List PathPart) : String :=
  "[" ++ commaJoin (path.map jsonOfPathPart) ++ "]"

/-- `JSON.stringify(args)` for an argument mapping, serialized in the
mapping's insertion order — exactly what `JSON.stringify` does to a plain
object in JavaScript. -/
def jsonOfArgs (args : List (String × Value)) : String :=
  "\x7b" ++ commaJoin (jsonFieldItems args) ++ "\x7d"

/-- `nodeIdForParameterizedValue` from `SnapshotEditor.ts`:
`` `${containerId}❖${JSON.stringify(path)}❖${JSON.stringify(args)}` ``. -/
def nodeIdForParameterizedValue (containerId : NodeId) (path : List PathPart)
    (args : List (String × Value)) : NodeId :=
  containerId ++ "❖" ++ jsonOfPath path ++ "❖" ++ jsonOfArgs args

/-! ## Node records and reference bookkeeping -/

/-- A reference stored in a node's `inbound`/`outbound` list: the other
node's id plus the path of the reference inside the holder's value
(`path = none` models `undefined`, used by parameterized-value edges). -/
structure NodeReference where
  id : NodeId
  path : Option (List PathPart)
deriving DecidableEq, Repr

/-- Modelled from the spec: the `NodeSnapshot` class (not under `src/`) — a
node record: value tree plus optional inbound/outbound reference lists
(`none` models an `undefined` list, which is how the source distinguishes
"no references" from an empty array). -/
structure NodeSnapshot where
  node : Value
  inbound : Option (List NodeReference)
  outbound : Option (List NodeReference)
deriving Repr

/-- `new NodeSnapshot()` with no arguments: all fields undefined. -/
def NodeSnapshot.blank : NodeSnapshot := ⟨.vUndef, none, none⟩

/-- Which reference list of a node record an operation addresses. -/
inductive Direction where
  | inb
  | outb
deriving DecidableEq, Repr

def NodeSnapshot.refs (s : NodeSnapshot) : Direction → Option (List NodeReference)
  | .inb => s.inbound
  | .outb => s.outbound

def NodeSnapshot.setRefs (s : NodeSnapshot) : Direction → Option (List NodeReference) → NodeSnapshot
  | .inb, l => { s with inbound := l }
  | .outb, l => { s with outbound := l }

/-- Modelled from the spec: `hasNodeReference` from `util` (not under
`src/`) — whether the list holds any reference with the given id. -/
def hasNodeReference (snap : NodeSnapshot) (d : Direction) (id : NodeId) : Bool :=
  ((snap.refs d).getD []).any (fun r => r.id = id)

/-- Modelled from the spec: `addNodeReference` from `util` (not under
`src/`) — append `{id, path}` to the (possibly not yet created) list. -/
def addNodeReference (d : Direction) (snap : NodeSnapshot) (id : NodeId)
    (path : Option (List PathPart)) : NodeSnapshot :=
  snap.setRefs d (some (((snap.refs d).getD []) ++ [⟨id, path⟩]))

/-- Remove the first occurrence of an element from a list, or `none` when it
does not occur. -/
def removeOccurrence : List NodeReference → NodeReference → Option (List NodeReference)
  | [], _ => none
  | r :: rest, t => if r = t then some rest else (removeOccurrence rest t).map (r :: ·)

/-- Modelled from the spec: `removeNodeReference` from `util` (not under
`src/`), §4.3 — remove one occurrence of `{id, path}`; when the list
empties it is reset to `undefined`, and the returned boolean says whether it
became empty (used by the orphan sweep; `!snapshot.inbound` in the source is
truthy only for `undefined`, since `[]` is truthy in JavaScript). -/
def removeNodeReference (d : Direction) (snap : NodeSnapshot) (id : NodeId)
    (path : Option (List PathPart)) : NodeSnapshot × Bool :=
  match snap.refs d with
  | none => (snap, false)
  | some l =>
    match removeOccurrence l ⟨id, path⟩ with
    | none => (snap, false)
    | some [] => (snap.setRefs d none, true)
    | some rest => (snap.setRefs d (some rest), false)

/-- The outbound reference list of an optional record (empty when the record
or the list is absent). -/
def outRefs : Option NodeSnapshot → List NodeReference
  | none => []
  | some s => s.outbound.getD []

/-- The inbound reference list of an optional record. -/
def inRefs : Option NodeSnapshot → List NodeReference
  | none => []
  | some s => s.inbound.getD []

/-- Remove the first occurrence of `t` when present (the list-level effect
of `removeNodeReference`). -/
def removeRef (l : List NodeReference) (t : NodeReference) : List NodeReference :=
  match removeOccurrence l t with
  | none => l
  | some rest => rest

/-! ## Snapshots and the editor's staged state -/

/-- Insertion-ordered association-list lookup (JavaScript objects keyed by
node id). -/
def alistGet {β : Type} : List (NodeId × β) → NodeId → Option β
  | [], _ => none
  | (k, v) :: rest, id => if k = id then some v else alistGet rest id

/-- Association-list update: an existing key is updated in place, a new key
is appended — JavaScript object assignment semantics. -/
def alistSet {β : Type} : List (NodeId × β) → NodeId → β → List (NodeId × β)
  | [], id, v => [(id, v)]
  | (k, v') :: rest, id, v =>
    if k = id then (k, v) :: rest else (k, v') :: alistSet rest id v

/-- Association-list deletion (`delete snapshots[id]`). -/
def alistRemove {β : Type} (l : List (NodeId × β)) (id : NodeId) : List (NodeId × β) :=
  l.filter (fun e => e.1 ≠ id)

/-- Insertion-ordered set insert (`Set.add`). -/
def insertSet (s : List NodeId) (id : NodeId) : List NodeId :=
  if id ∈ s then s else s ++ [id]

/-- Add every element of `items` to the set (the `addToSet` utility). -/
def addToSet (s : List NodeId) (items : List NodeId) : List NodeId :=
  items.foldl insertSet s

/-- Modelled from the spec: the `GraphSnapshot` class (not under `src/`) —
an immutable mapping from node id to node record (`_values`). -/
structure GraphSnapshot where
  values : List (NodeId × NodeSnapshot)
deriving Repr

def GraphSnapshot.empty : GraphSnapshot := ⟨[]⟩

/-- `snapshot.getSnapshot(id)`. -/
def GraphSnapshot.getSnapshot (g : GraphSnapshot) (id : NodeId) : Option NodeSnapshot :=
  alistGet g.values id

/-- `snapshot.get(id)`: the node's value, or `undefined`. -/
def GraphSnapshot.get (g : GraphSnapshot) (id : NodeId) : Value :=
  match g.getSnapshot id with
  | some s => s.node
  | none => (.vUndef)

/-- The editor's staged state (the private fields of `SnapshotEditor`):
`newNodes` maps a node id to `some record` (staged change) or `none`
(tombstone: `this._newNodes[id] = undefined`). -/
structure EditorState where
  parent : GraphSnapshot
  newNodes : List (NodeId × Option NodeSnapshot)
  editedNodeIds : List NodeId
  rebuiltNodeIds : List NodeId
deriving Repr

/-- A fresh editor over a parent snapshot (the constructor). -/
def EditorState.init (parent : GraphSnapshot) : EditorState :=
  ⟨parent, [], [], []⟩

/-- `getSnapshot` of `SnapshotEditor`: the latest version of a node record —
a staged record (or tombstone) wins over the parent's. -/
def EditorState.getSnapshot (st : EditorState) (id : NodeId) : Option NodeSnapshot :=
  match alistGet st.newNodes id with
  | some v => v
  | none => st.parent.getSnapshot id

/-- `get` of `SnapshotEditor`: the latest value of a node, or `undefined`. -/
def EditorState.get (st : EditorState) (id : NodeId) : Value :=
  match st.getSnapshot id with
  | some s => s.node
  | none => (.vUndef)

/-- `_ensureNewSnapshot`: returns the staged record for `id`, creating one
if needed — a tombstoned id restarts from a blank record; an untouched id
starts from a shallow copy of the parent's record (or an empty object value
when the parent has none). -/
def ensureNewSnapshot (st : EditorState) (id : NodeId) : NodeSnapshot × EditorState :=
  match alistGet st.newNodes id with
  | some (some current) => (current, st)
  | some none =>
    let ns := NodeSnapshot.blank
    (ns, { st with newNodes := alistSet st.newNodes id (some ns) })
  | none =>
    match st.parent.getSnapshot id with
    | some p =>
      let ns : NodeSnapshot := ⟨p.node, p.inbound, p.outbound⟩
      (ns, { st with newNodes := alistSet st.newNodes id (some ns) })
    | none =>
      let ns : NodeSnapshot := ⟨.vObj [], none, none⟩
      (ns, { st with newNodes := alistSet st.newNodes id (some ns) })

/-- Store an updated record for an id that `_ensureNewSnapshot` has staged —
this models the source's in-place mutation of the staged record object,
which is reachable through `_newNodes[id]`. -/
def putNew (st : EditorState) (id : NodeId) (snap : NodeSnapshot) : EditorState :=
  { st with newNodes := alistSet st.newNodes id (some snap) }

/-- `_setValue`: stage `newValue` at `path` of node `id`; when `isEdit`, the
id is added to `editedNodeIds`. -/
def setValue (st : EditorState) (id : NodeId) (path : List PathPart) (newValue : Value)
    (isEdit : Bool) : EditorState :=
  let st := if isEdit then { st with editedNodeIds := insertSet st.editedNodeIds id } else st
  let current := (ensureNewSnapshot st id).1
  let st := (ensureNewSnapshot st id).2
  putNew st id { current with node := deepSet current.node path newValue }

/-- Read–modify–write form of `addNodeReference` against the staged table
(the source mutates the ensured record object in place). -/
def stAddRef (st : EditorState) (d : Direction) (ownerId : NodeId) (refId : NodeId)
    (path : Option (List PathPart)) : EditorState :=
  let owner := (ensureNewSnapshot st ownerId).1
  let st := (ensureNewSnapshot st ownerId).2
  putNew st ownerId (addNodeReference d owner refId path)

/-- Read–modify–write form of `removeNodeReference` against the staged
table; the boolean reports whether the reference list became empty. -/
def stRemoveRef (st : EditorState) (d : Direction) (ownerId : NodeId) (refId : NodeId)
    (path : Option (List PathPart)) : EditorState × Bool :=
  let owner := (ensureNewSnapshot st ownerId).1
  let st := (ensureNewSnapshot st ownerId).2
  let removed := removeNodeReference d owner refId path
  (putNew st ownerId removed.1, removed.2)

/-- The result of `commit()`. -/
structure EditedSnapshot where
  snapshot : GraphSnapshot
  editedNodeIds : List NodeId
deriving Repr

/-- `commit()`: overlay the staged records on the parent's map, dropping
tombstoned ids, and return the new snapshot with the edited-id set. -/
def commit (st : EditorState) : EditedSnapshot :=
  let snapshots := st.newNodes.foldl
    (fun acc e =>
      match e.2 with
      | none => alistRemove acc e.1
      | some snap => alistSet acc e.1 snap)
    st.parent.values
  ⟨⟨snapshots⟩, st.editedNodeIds⟩

/-! ## Query configuration, edge maps and the payload walker -/

/-- The editor's required configuration capability: `entityIdForNode`. -/
structure Configuration where
  entityIdForNode : Value → Option NodeId

/-- A static argument expression of a parameterized field: a literal or a
reference to a query variable. -/
inductive ArgValue where
  | lit (v : Value)
  | varRef (name : String)
deriving Repr

/-- The static arguments of one parameterized field, in document order. -/
abbrev EdgeArgs := List (String × ArgValue)

/-- Modelled from the spec: the edge map produced by
`parameterizedEdgesForOperation` (not under `src/`) — a tree mirroring the
query's selection set, whose nodes optionally carry the static argument
expression of a parameterized field. -/
inductive EdgeTree where
  | node (edge : Option EdgeArgs) (children : List (String × EdgeTree))
deriving Repr

def EdgeTree.edge : EdgeTree → Option EdgeArgs
  | .node e _ => e

def EdgeTree.child (t : EdgeTree) (k : String) : Option EdgeTree :=
  match t with
  | .node _ children => children.lookup k

/-- The edge map of a whole operation: field subtrees under an unmarked
root. -/
def edgeMapRoot (children : List (String × EdgeTree)) : EdgeTree :=
  .node none children

/-- Modelled from the spec: `expandEdgeArguments` (not under `src/`) —
substitute query variables into the static arguments; an unbound variable
becomes `null`. -/
def expandEdgeArguments (args : EdgeArgs) (queryVars : List (String × Value)) :
    List (String × Value) :=
  args.map (fun e =>
    match e.2 with
    | .lit v => (e.1, v)
    | .varRef n => (e.1, (queryVars.lookup n).getD .vNull))

mutual

/-- Modelled from the spec (§4.2): the descent part of `walkPayload` (not
under `src/`) — jointly walk the payload's children against the node value,
invoking the visitor pre-order at each child position; a `true` return stops
the descent into that subtree.  Array indices do not consume edge-map
steps. -/
def walkInto {σ : Type}
    (visit : List PathPart → Value → Value → Option EdgeArgs → σ → Bool × σ)
    (path : List PathPart) : Value → Value → EdgeTree → σ → σ
  | .vObj fields, node, em, s => walkFieldList visit path fields node em s
  | .vArr xs, node, em, s => walkElemList visit path 0 xs node em s
  | _, _, _, s => s

def walkFieldList {σ : Type}
    (visit : List PathPart → Value → Value → Option EdgeArgs → σ → Bool × σ)
    (path : List PathPart) :
    List (String × Value) → Value → EdgeTree → σ → σ
  | [], _, _, s => s
  | (k, pv) :: rest, node, em, s =>
    let childPath := path ++ [.field k]
    let childNode := node.objGet k
    let childEm := (em.child k).getD (.node none [])
    let r := visit childPath pv childNode childEm.edge s
    let s2 := if r.1 then r.2 else walkInto visit childPath pv childNode childEm r.2
    walkFieldList visit path rest node em s2

def walkElemList {σ : Type}
    (visit : List PathPart → Value → Value → Option EdgeArgs → σ → Bool × σ)
    (path : List PathPart) (i : Nat) :
    List Value → Value → EdgeTree → σ → σ
  | [], _, _, s => s
  | pv :: rest, node, em, s =>
    let childPath := path ++ [.index i]
    let childNode := node.idxGet i
    let r := visit childPath pv childNode none s
    let s2 := if r.1 then r.2 else walkInto visit childPath pv childNode em r.2
    walkElemList visit path (i + 1) rest node em s2

end

/-- Modelled from the spec (§4.2): `walkPayload` (not under `src/`) —
`visitRoot` forces a visitor invocation at the payload's root before the
descent. -/
def walkPayload {σ : Type}
    (visit : List PathPart → Value → Value → Option EdgeArgs → σ → Bool × σ)
    (payload node : Value) (em : EdgeTree) (visitRoot : Bool) (s : σ) : σ :=
  if visitRoot then
    let r := visit [] payload node em.edge s
    if r.1 then r.2 else walkInto visit [] payload node em r.2
  else walkInto visit [] payload node em s

/-! ## Phase 1: `_mergePayloadValues` -/

/-- An item of the phase-1 work queue. -/
structure MergeQueueItem where
  containerId : NodeId
  containerPayload : Value
  visitRoot : Bool
deriving Repr

/-- A recorded edit to a reference (`ReferenceEdit`). -/
structure ReferenceEdit where
  containerId : NodeId
  path : List PathPart
  prevNodeId : Option NodeId
  nextNodeId : Option NodeId
deriving DecidableEq, Repr

/-- The state threaded through the phase-1 walk: editor state, collected
reference edits (in visit order), and the work stack (head = next pop). -/
structure MergeSt where
  st : EditorState
  edits : List ReferenceEdit
  queue : List MergeQueueItem

/-- The entity id the visitor extracts from a value:
`isObject(value) ? entityIdForNode(value) : undefined` (source lines
135–136). -/
def entityIdOf (cfg : Configuration) (v : Value) : Option NodeId :=
  if v.isObject then cfg.entityIdForNode v else none

/-- The visitor of `_mergePayloadValues` (source lines 134–207): classifies
each position as a parameterized edge, an entity reference, an array, or a
scalar, staging value edits and collecting reference edits. -/
def mergeVisitor (cfg : Configuration) (queryVars : List (String × Value))
    (containerId : NodeId) (path : List PathPart) (payloadValue nodeValue : Value)
    (pedge : Option EdgeArgs) (s : MergeSt) : Bool × MergeSt :=
  let nextNodeId0 := entityIdOf cfg payloadValue
  let prevNodeId := entityIdOf cfg nodeValue
  match pedge with
  | some parameterizedEdge =>
    let edgeArguments := expandEdgeArguments parameterizedEdge queryVars
    let edgeId := nodeIdForParameterizedValue containerId path edgeArguments
    let containerSnapshot := (ensureNewSnapshot s.st containerId).1
    let st1 := (ensureNewSnapshot s.st containerId).2
    let st2 :=
      if hasNodeReference containerSnapshot .outb edgeId then st1
      else
        let st := putNew st1 containerId (addNodeReference .outb containerSnapshot edgeId none)
        let edgeSnapshot := (ensureNewSnapshot st edgeId).1
        let st := (ensureNewSnapshot st edgeId).2
        putNew st edgeId (addNodeReference .inb edgeSnapshot containerId none)
    (true, { s with st := st2, queue := ⟨edgeId, payloadValue, true⟩ :: s.queue })
  | none =>
    if prevNodeId.isSome || nextNodeId0.isSome then
      let nextNodeId := if nextNodeId0.isNone && payloadValue.truthy then prevNodeId else nextNodeId0
      let s :=
        if prevNodeId ≠ nextNodeId then
          { s with edits := s.edits ++ [⟨containerId, path, prevNodeId, nextNodeId⟩] }
        else s
      let s :=
        match nextNodeId with
        | some nid => { s with queue := ⟨nid, payloadValue, false⟩ :: s.queue }
        | none => s
      (true, s)
    else if payloadValue.isArr then
      if nodeValue.truthy && Value.jsStrictEq nodeValue.jsLength payloadValue.jsLength then (false, s)
      else
        let newArray :=
          match nodeValue, payloadValue with
          | .vArr xs, .vArr ps => Value.vArr (xs.take ps.length)
          | _, _ => Value.vArr []
        (false, { s with st := setValue s.st containerId path newArray true })
    else if payloadValue.isScalar && !Value.jsStrictEq payloadValue nodeValue then
      (false, { s with st := setValue s.st containerId path payloadValue true })
    else (false, s)

/-- The outer queue loop of `_mergePayloadValues`, fuel-indexed (the source
pops the explicit queue until it empties). -/
def mergeLoop (cfg : Configuration) (queryVars : List (String × Value)) (em : EdgeTree) :
    Nat → MergeSt → MergeSt
  | 0, s => s
  | fuel + 1, s =>
    match s.queue with
    | [] => s
    | item :: rest =>
      let container := EditorState.get s.st item.containerId
      let s1 := walkPayload (mergeVisitor cfg queryVars item.containerId)
        item.containerPayload container em item.visitRoot { s with queue := rest }
      mergeLoop cfg queryVars em fuel s1

/-- `_mergePayloadValues`: walk the payload from the query root, returning
the collected reference edits and the updated editor state. -/
def mergePayloadValues (cfg : Configuration) (queryVars : List (String × Value))
    (em : EdgeTree) (fuel : Nat) (rootId : NodeId) (fullPayload : Value)
    (st : EditorState) : MergeSt :=
  mergeLoop cfg queryVars em fuel ⟨st, [], [⟨rootId, fullPayload, false⟩]⟩

/-! ## Phase 2: `_mergeReferenceEdits` -/

/-- Apply one reference edit (the body of the loop in
`_mergeReferenceEdits`): write the target's current value at the path,
unhook the previous inbound/outbound pair (flagging an orphan when the
previous target's inbound list empties), and hook up the new pair (removing
the new target from the orphan set). -/
def applyReferenceEdit (acc : EditorState × List NodeId) (e : ReferenceEdit) :
    EditorState × List NodeId :=
  let (st, orphanedNodeIds) := acc
  let target : Value :=
    match e.nextNodeId with
    | some nid => EditorState.get st nid
    | none => .vNull
  let st := setValue st e.containerId e.path target true
  let st := (ensureNewSnapshot st e.containerId).2
  let acc2 :=
    match e.prevNodeId with
    | some prev =>
      let st := (stRemoveRef st .outb e.containerId prev (some e.path)).1
      let st := (ensureNewSnapshot st prev).2
      let st := (stRemoveRef st .inb prev e.containerId (some e.path)).1
      let inboundGone := ((EditorState.getSnapshot st prev).bind (·.inbound)).isNone
      (st, if inboundGone then insertSet orphanedNodeIds prev else orphanedNodeIds)
    | none => (st, orphanedNodeIds)
  match e.nextNodeId with
  | some next =>
    let st := stAddRef acc2.1 .outb e.containerId next (some e.path)
    let st := stAddRef st .inb next e.containerId (some e.path)
    (st, acc2.2.erase next)
  | none => acc2

/-- `_mergeReferenceEdits`: apply all recorded reference edits in order,
returning the set of newly orphaned node ids. -/
def mergeReferenceEdits (st : EditorState) (referenceEdits : List ReferenceEdit) :
    EditorState × List NodeId :=
  referenceEdits.foldl applyReferenceEdit (st, [])

/-! ## Phase 3: `_rebuildInboundReferences` -/

/-- Process the inbound list of one popped node during the rebuild walk:
deep-set the node's current value into each holder with a defined path
(`isEdit = false`), scheduling holders not yet rebuilt.  Returns the state
and the updated work stack. -/
def rebuildStep (snapshotNode : Value) (init : EditorState × List NodeId)
    (inbound : List NodeReference) : EditorState × List NodeId :=
  inbound.foldl
    (fun acc r =>
      match r.path with
      | none => acc
      | some path =>
        let st := setValue acc.1 r.id path snapshotNode false
        if r.id ∈ st.rebuiltNodeIds then (st, acc.2)
        else ({ st with rebuiltNodeIds := st.rebuiltNodeIds ++ [r.id] }, r.id :: acc.2))
    init

/-- The fuel-indexed loop of `_rebuildInboundReferences`; the work stack's
head is the next pop.  Returns the final state and the unprocessed stack
(empty when the loop ran to completion). -/
def rebuildLoop : Nat → EditorState → List NodeId → EditorState × List NodeId
  | 0, st, queue => (st, queue)
  | fuel + 1, st, queue =>
    match queue with
    | [] => (st, [])
    | nodeId :: rest =>
      match EditorState.getSnapshot st nodeId with
      | none => rebuildLoop fuel st rest
      | some snapshot =>
        match snapshot.inbound with
        | none => rebuildLoop fuel st rest
        | some inbound =>
          let acc := rebuildStep snapshot.node (st, rest) inbound
          rebuildLoop fuel acc.1 acc.2

/-- `_rebuildInboundReferences`: seed the walk with the edited node ids
(marking them rebuilt), then run the loop. -/
def rebuildInboundReferences (fuel : Nat) (st : EditorState) : EditorState × List NodeId :=
  let queue := st.editedNodeIds
  let st := { st with rebuiltNodeIds := addToSet st.rebuiltNodeIds queue }
  rebuildLoop fuel st queue.reverse

/-! ## Phase 4: `_removeOrphanedNodes` -/

/-- The body of the sweep over a tombstoned node's outbound list: remove the
matching inbound reference of the target, scheduling the target when its
inbound list empties. -/
def orphanSweepStep (nodeId : NodeId) (acc : EditorState × List NodeId)
    (r : NodeReference) : EditorState × List NodeId :=
  let removed := stRemoveRef acc.1 .inb r.id nodeId r.path
  if removed.2 then (removed.1, r.id :: acc.2) else (removed.1, acc.2)

/-- The fuel-indexed loop of `_removeOrphanedNodes`: pop a node, tombstone
it, mark it edited, and remove the matching inbound reference of each of its
outbound targets, scheduling targets whose inbound list empties. -/
def removeOrphanLoop : Nat → EditorState → List NodeId → EditorState × List NodeId
  | 0, st, queue => (st, queue)
  | fuel + 1, st, queue =>
    match queue with
    | [] => (st, [])
    | nodeId :: rest =>
      match EditorState.getSnapshot st nodeId with
      | none => removeOrphanLoop fuel st rest
      | some node =>
        let st := { st with
          newNodes := alistSet st.newNodes nodeId none,
          editedNodeIds := insertSet st.editedNodeIds nodeId }
        match node.outbound with
        | none => removeOrphanLoop fuel st rest
        | some outbound =>
          let acc := outbound.foldl (orphanSweepStep nodeId) (st, rest)
          removeOrphanLoop fuel acc.1 acc.2

/-- `_removeOrphanedNodes`. -/
def removeOrphanedNodes (fuel : Nat) (st : EditorState) (nodeIds : List NodeId) :
    EditorState × List NodeId :=
  removeOrphanLoop fuel st nodeIds.reverse

/-! ## `mergePayload` -/

/-- `mergePayload`: the four ordered phases of one merge.  The edge map and
variables stand in for the query document (their extraction is the external
parser's job); `fuel` bounds the three worklist loops, which the source runs
to completion. -/
def mergePayload (cfg : Configuration) (em : EdgeTree) (queryVars : List (String × Value))
    (fuel : Nat) (rootId : NodeId) (payload : Value) (st : EditorState) : EditorState :=
  let ms := mergePayloadValues cfg queryVars em fuel rootId payload st
  let merged := mergeReferenceEdits ms.st ms.edits
  let rebuilt := rebuildInboundReferences fuel merged.1
  (removeOrphanedNodes fuel rebuilt.1 merged.2).1

/-! ## Concrete scenario setup (mirroring the repository's write tests) -/

/-- Modelled from the spec: the test helpers' configuration (not under
`src/`) — an entity's id is its `id` property, stringified, when present. -/
def testEntityId : Value → Option NodeId
  | .vObj fields =>
    let idv := (fields.lookup "id").getD .vUndef
    if idv.truthy then some idv.jsToString else none
  | _ => none

def testConfig : Configuration := ⟨testEntityId⟩

/-- The well-known query-root id (`StaticNodeId.QueryRoot`). -/
def QueryRootId : NodeId := "QueryRoot"

/-- Edge map of `query getAFoo($id: ID!) { foo(id: $id, withExtra: true) {
name extra } }`. -/
def s1EdgeMap : EdgeTree :=
  edgeMapRoot [("foo", .node (some [("id", .varRef "id"), ("withExtra", .lit (.vBool true))]) [])]

def s1Vars : List (String × Value) := [("id", .vInt 1)]

/-- Payload `{foo: {name: 'Foo', extra: false}}` of scenario S1. -/
def s1Payload : Value :=
  .vObj [("foo", .vObj [("name", .vStr "Foo"), ("extra", .vBool false)])]

/-- The parameterized id the tests expect for S1. -/
def s1ParamId : NodeId :=
  nodeIdForParameterizedValue QueryRootId [.field "foo"] [("id", .vInt 1), ("withExtra", .vBool true)]

/-- The editor state after S1's single merge over the empty snapshot. -/
def s1State : EditorState :=
  mergePayload testConfig s1EdgeMap s1Vars 100 QueryRootId s1Payload
    (EditorState.init GraphSnapshot.empty)

def s1Committed : EditedSnapshot := commit s1State

/-- Edge map of the unparameterized `{ viewer { id name } }` query. -/
def viewerEdgeMap : EdgeTree := edgeMapRoot []

/-! Reachability over a committed snapshot, following outbound references. -/

/-- One breadth-first expansion step: add every outbound target of every
currently reached node. -/
def reachStep (g : GraphSnapshot) (seen : List NodeId) : List NodeId :=
  seen.foldl
    (fun acc id =>
      match g.getSnapshot id with
      | none => acc
      | some s => (s.outbound.getD []).foldl (fun acc r => insertSet acc r.id) acc)
    seen

def reachIter (g : GraphSnapshot) : Nat → List NodeId → List NodeId
  | 0, seen => seen
  | n + 1, seen => reachIter g n (reachStep g seen)

/-- The ids reachable from the given roots by following `outbound`
(iterated to a fixpoint: one step per node suffices). -/
def reachableIds (g : GraphSnapshot) (roots : List NodeId) : List NodeId :=
  reachIter g (g.values.length + 1) roots

end Hermes

namespace Hermes

def cyclePayload : Value :=
  .vObj [("viewer", .vObj [("id", .vStr "A"),
    ("b", .vObj [("id", .vStr "B"), ("a", .vObj [("id", .vStr "A")])])])]

def cycleState1 : EditorState :=
  mergePayload testConfig viewerEdgeMap [] 100 QueryRootId cyclePayload
    (EditorState.init GraphSnapshot.empty)

def cycleSnapshot1 : GraphSnapshot := (commit cycleState1).snapshot

def clearViewerPayload : Value := .vObj [("viewer", .vNull)]

def cycleState2 : EditorState :=
  mergePayload testConfig viewerEdgeMap [] 100 QueryRootId clearViewerPayload
    (EditorState.init cycleSnapshot1)

def cycleSnapshot2 : GraphSnapshot := (commit cycleState2).snapshot

def chainPayload : Value :=
  .vObj [("viewer", .vObj [("id", .vStr "A"), ("b", .vObj [("id", .vStr "B")])])]

def chainSnapshot1 : GraphSnapshot :=
  (commit (mergePayload testConfig viewerEdgeMap [] 100 QueryRootId chainPayload
    (EditorState.init GraphSnapshot.empty))).snapshot

def chainState2 : EditorState :=
  mergePayload testConfig viewerEdgeMap [] 100 QueryRootId clearViewerPayload
    (EditorState.init chainSnapshot1)

def remergeState : EditorState :=
  mergePayload testConfig s1EdgeMap s1Vars 100 QueryRootId s1Payload
    (EditorState.init s1Committed.snapshot)

/-- Payload `{foo: {id: 1, name: 'Foo', extra: false}}` (scenario S3: a
parameterized field holding a direct entity reference). -/
def s3Payload : Value :=
  .vObj [("foo", .vObj [("id", .vInt 1), ("name", .vStr "Foo"), ("extra", .vBool false)])]

def s3Snapshot : GraphSnapshot :=
  (commit (mergePayload testConfig s1EdgeMap s1Vars 100 QueryRootId s3Payload
    (EditorState.init GraphSnapshot.empty))).snapshot

/-- Payload `{viewer: {id: 1, name: 'Foo Bar'}}` (scenario S4: updating the
entity through an unrelated query). -/
def s4Payload : Value :=
  .vObj [("viewer", .vObj [("id", .vInt 1), ("name", .vStr "Foo Bar")])]

def s4State : EditorState :=
  mergePayload testConfig viewerEdgeMap [] 100 QueryRootId s4Payload
    (EditorState.init s3Snapshot)

def s4Committed : EditedSnapshot := commit s4State

/-- Re-merging an identical plain-entity payload (no parameterized fields)
stages nothing at all. -/
def viewerBaseline : GraphSnapshot :=
  (commit (mergePayload testConfig viewerEdgeMap [] 100 QueryRootId
    (.vObj [("viewer", .vObj [("id", .vInt 1), ("name", .vStr "Foo")])])
    (EditorState.init GraphSnapshot.empty))).snapshot

def viewerRemergeState : EditorState :=
  mergePayload testConfig viewerEdgeMap [] 100 QueryRootId
    (.vObj [("viewer", .vObj [("id", .vInt 1), ("name", .vStr "Foo")])])
    (EditorState.init viewerBaseline)

/-! ## Sequences of merges -/

/-- One `mergePayload` call: the query (as its edge map, variables and root
id) and the payload. -/
structure MergeSpec where
  em : EdgeTree
  queryVars : List (String × Value)
  rootId : NodeId
  payload : Value

/-- A sequence of `mergePayload` calls against one editor. -/
def mergeAll (cfg : Configuration) (fuel : Nat) (specs : List MergeSpec)
    (st : EditorState) : EditorState :=
  specs.foldl (fun st m => mergePayload cfg m.em m.queryVars fuel m.rootId m.payload st) st

/-! ## Edge-count formulations of the graph invariants -/

/-- Multiplicity of the reference `r` in the outbound list of `h`, in the
editor's current view. -/
def refCountOut (st : EditorState) (h : NodeId) (r : NodeReference) : Nat :=
  (outRefs (st.getSnapshot h)).count r

/-- Multiplicity of the reference `r` in the inbound list of `t`, in the
editor's current view. -/
def refCountIn (st : EditorState) (t : NodeId) (r : NodeReference) : Nat :=
  (inRefs (st.getSnapshot t)).count r

/-- Bidirectional symmetry of the editor's view: every edge `{h, t, p}`
occurs in `h`'s outbound list exactly as often as in `t`'s inbound list. -/
def SymmetricSt (st : EditorState) : Prop :=
  ∀ h t p, refCountOut st h ⟨t, p⟩ = refCountIn st t ⟨h, p⟩

/-- The staged table has no duplicate keys (an invariant of the JavaScript
object `_newNodes`, re-established here for the association-list model). -/
def NodupKeys (st : EditorState) : Prop := (st.newNodes.map Prod.fst).Nodup

/-- Outbound multiplicity in a committed snapshot. -/
def refCountOutG (g : GraphSnapshot) (h : NodeId) (r : NodeReference) : Nat :=
  (outRefs (g.getSnapshot h)).count r

/-- Inbound multiplicity in a committed snapshot. -/
def refCountInG (g : GraphSnapshot) (t : NodeId) (r : NodeReference) : Nat :=
  (inRefs (g.getSnapshot t)).count r

/-- Bidirectional symmetry of a committed snapshot, with multiplicity. -/
def SymmetricG (g : GraphSnapshot) : Prop :=
  ∀ h t p, refCountOutG g h ⟨t, p⟩ = refCountInG g t ⟨h, p⟩

/-- The node's inbound list is `undefined` (or the node is absent): the
condition under which the editor treats a node as orphaned. -/
def InboundGone (st : EditorState) (id : NodeId) : Prop :=
  ((st.getSnapshot id).bind NodeSnapshot.inbound) = none

/-- The combined invariant carried through the merge phases: edge-count
symmetry plus duplicate-free staged keys. -/
def GoodSt (st : EditorState) : Prop := SymmetricSt st ∧ NodupKeys st

/-- The invariant of the `_mergeReferenceEdits` fold: a good state plus a
duplicate-free orphan set whose members all have emptied inbound lists. -/
def GoodAcc (acc : EditorState × List NodeId) : Prop :=
  GoodSt acc.1 ∧ acc.2.Nodup ∧ ∀ a ∈ acc.2, InboundGone acc.1 a

/-! ## The id universe of a state (for the rebuild termination bound) -/

/-- All node ids mentioned by a record's reference lists. -/
def snapIds (s : NodeSnapshot) : List NodeId :=
  (s.inbound.getD []).map NodeReference.id ++ (s.outbound.getD []).map NodeReference.id

/-- Every id reachable through `getSnapshot` has its referenced ids inside
`U`: the boundedness invariant of the rebuild walk. -/
def RefsBounded (st : EditorState) (U : Finset NodeId) : Prop :=
  ∀ id s, st.getSnapshot id = some s → ∀ x ∈ snapIds s, x ∈ U

/-- The ids mentioned anywhere in the state (record keys and edge lists):
a concrete universe satisfying `RefsBounded`. -/
def idsOf (st : EditorState) : Finset NodeId :=
  ((st.parent.values.map (fun e => e.1 :: snapIds e.2)).flatten ++
    (st.newNodes.map (fun e =>
      match e.2 with
      | some s => e.1 :: snapIds s
      | none => [e.1])).flatten).toFinset

/-- The termination measure of the rebuild loop: ids of `U` not yet rebuilt,
plus the pending queue length. -/
def rebuildMeasure (st : EditorState) (U : Finset NodeId) (queue : List NodeId) : Nat :=
  (U \ st.rebuiltNodeIds.toFinset).card + queue.length

/-- A two-node reference cycle (`A ↔ B`, with defined paths on both edges),
with `A` edited and already marked rebuilt: a worst case for the rebuild
walk's cycle safety. -/
def cyc : EditorState :=
  ⟨⟨[("A", ⟨.vObj [("x", .vInt 1)],
        some [⟨"B", some [.field "a"]⟩], some [⟨"B", some [.field "b"]⟩]⟩),
     ("B", ⟨.vObj [("y", .vInt 2)],
        some [⟨"A", some [.field "b"]⟩], some [⟨"A", some [.field "a"]⟩]⟩)]⟩,
   [], ["A"], ["A"]⟩

end Hermes

namespace Hermes

/-! # Lemmas: the staged primitives mutate only `newNodes` and the id sets -/

theorem ensureNewSnapshot_newNodes_only (st : EditorState) (id : NodeId) :
    ∃ nn, (ensureNewSnapshot st id).2 = { st with newNodes := nn } := by
  unfold ensureNewSnapshot
  split
  · exact ⟨st.newNodes, rfl⟩
  · exact ⟨_, rfl⟩
  · split
    · exact ⟨_, rfl⟩
    · exact ⟨_, rfl⟩

theorem ensure_parent (st : EditorState) (id : NodeId) :
    (ensureNewSnapshot st id).2.parent = st.parent := by
  obtain ⟨nn, h⟩ := ensureNewSnapshot_newNodes_only st id
  rw [h]

theorem ensure_edited (st : EditorState) (id : NodeId) :
    (ensureNewSnapshot st id).2.editedNodeIds = st.editedNodeIds := by
  obtain ⟨nn, h⟩ := ensureNewSnapshot_newNodes_only st id
  rw [h]

theorem ensure_rebuilt (st : EditorState) (id : NodeId) :
    (ensureNewSnapshot st id).2.rebuiltNodeIds = st.rebuiltNodeIds := by
  obtain ⟨nn, h⟩ := ensureNewSnapshot_newNodes_only st id
  rw [h]

theorem setValue_parent (st : EditorState) (id : NodeId) (path : List PathPart)
    (v : Value) (ie : Bool) : (setValue st id path v ie).parent = st.parent := by
  unfold setValue putNew
  cases ie <;> simp only [Bool.false_eq_true, if_false, if_true, ite_true, ite_false] <;>
    rw [ensure_parent]

theorem setValue_rebuilt (st : EditorState) (id : NodeId) (path : List PathPart)
    (v : Value) (ie : Bool) : (setValue st id path v ie).rebuiltNodeIds = st.rebuiltNodeIds := by
  unfold setValue putNew
  cases ie <;> simp only [Bool.false_eq_true, if_false, if_true, ite_true, ite_false] <;>
    rw [ensure_rebuilt]

theorem setValue_edited_false (st : EditorState) (id : NodeId) (path : List PathPart)
    (v : Value) : (setValue st id path v false).editedNodeIds = st.editedNodeIds := by
  unfold setValue putNew
  simp only [Bool.false_eq_true, if_false, ite_false]
  rw [ensure_edited]

theorem setValue_edited_true (st : EditorState) (id : NodeId) (path : List PathPart)
    (v : Value) : (setValue st id path v true).editedNodeIds = insertSet st.editedNodeIds id := by
  unfold setValue putNew
  simp only [if_true, ite_true]
  rw [ensure_edited]

theorem stAddRef_parent (st : EditorState) (d : Direction) (o r : NodeId)
    (p : Option (List PathPart)) : (stAddRef st d o r p).parent = st.parent := by
  unfold stAddRef putNew
  rw [ensure_parent]

theorem stAddRef_edited (st : EditorState) (d : Direction) (o r : NodeId)
    (p : Option (List PathPart)) : (stAddRef st d o r p).editedNodeIds = st.editedNodeIds := by
  unfold stAddRef putNew
  rw [ensure_edited]

theorem stAddRef_rebuilt (st : EditorState) (d : Direction) (o r : NodeId)
    (p : Option (List PathPart)) : (stAddRef st d o r p).rebuiltNodeIds = st.rebuiltNodeIds := by
  unfold stAddRef putNew
  rw [ensure_rebuilt]

theorem stRemoveRef_parent (st : EditorState) (d : Direction) (o r : NodeId)
    (p : Option (List PathPart)) : (stRemoveRef st d o r p).1.parent = st.parent := by
  unfold stRemoveRef putNew
  rw [ensure_parent]

theorem stRemoveRef_edited (st : EditorState) (d : Direction) (o r : NodeId)
    (p : Option (List PathPart)) : (stRemoveRef st d o r p).1.editedNodeIds = st.editedNodeIds := by
  unfold stRemoveRef putNew
  rw [ensure_edited]

theorem stRemoveRef_rebuilt (st : EditorState) (d : Direction) (o r : NodeId)
    (p : Option (List PathPart)) : (stRemoveRef st d o r p).1.rebuiltNodeIds = st.rebuiltNodeIds := by
  unfold stRemoveRef putNew
  rw [ensure_rebuilt]

/-! # The generic walker-preservation principle -/

mutual

theorem walkInto_preserves {σ : Type} (P : σ → Prop)
    (visit : List PathPart → Value → Value → Option EdgeArgs → σ → Bool × σ)
    (hv : ∀ path pv nv pe s, P s → P (visit path pv nv pe s).2) :
    ∀ (path : List PathPart) (payload node : Value) (em : EdgeTree) (s : σ),
      P s → P (walkInto visit path payload node em s)
  | path, .vObj fields, node, em, s, hs =>
      walkFieldList_preserves P visit hv path fields node em s hs
  | path, .vArr xs, node, em, s, hs =>
      walkElemList_preserves P visit hv path 0 xs node em s hs
  | _, .vNull, _, _, _, hs => hs
  | _, .vUndef, _, _, _, hs => hs
  | _, .vBool _, _, _, _, hs => hs
  | _, .vInt _, _, _, _, hs => hs
  | _, .vStr _, _, _, _, hs => hs

theorem walkFieldList_preserves {σ : Type} (P : σ → Prop)
    (visit : List PathPart → Value → Value → Option EdgeArgs → σ → Bool × σ)
    (hv : ∀ path pv nv pe s, P s → P (visit path pv nv pe s).2) :
    ∀ (path : List PathPart) (fields : List (String × Value)) (node : Value)
      (em : EdgeTree) (s : σ), P s → P (walkFieldList visit path fields node em s)
  | _, [], _, _, _, hs => hs
  | path, (k, pv) :: rest, node, em, s, hs => by
      rw [walkFieldList]
      apply walkFieldList_preserves P visit hv path rest node em
      have h1 := hv (path ++ [.field k]) pv (node.objGet k)
        ((em.child k).getD (.node none [])).edge s hs
      split
      · exact h1
      · exact walkInto_preserves P visit hv (path ++ [.field k]) pv (node.objGet k)
          ((em.child k).getD (.node none [])) _ h1

theorem walkElemList_preserves {σ : Type} (P : σ → Prop)
    (visit : List PathPart → Value → Value → Option EdgeArgs → σ → Bool × σ)
    (hv : ∀ path pv nv pe s, P s → P (visit path pv nv pe s).2) :
    ∀ (path : List PathPart) (i : Nat) (xs : List Value) (node : Value)
      (em : EdgeTree) (s : σ), P s → P (walkElemList visit path i xs node em s)
  | _, _, [], _, _, _, hs => hs
  | path, i, pv :: rest, node, em, s, hs => by
      rw [walkElemList]
      apply walkElemList_preserves P visit hv path (i + 1) rest node em
      have h1 := hv (path ++ [.index i]) pv (node.idxGet i) none s hs
      split
      · exact h1
      · exact walkInto_preserves P visit hv (path ++ [.index i]) pv (node.idxGet i) em _ h1

end

theorem walkPayload_preserves {σ : Type} (P : σ → Prop)
    (visit : List PathPart → Value → Value → Option EdgeArgs → σ → Bool × σ)
    (hv : ∀ path pv nv pe s, P s → P (visit path pv nv pe s).2)
    (payload node : Value) (em : EdgeTree) (visitRoot : Bool) (s : σ) (hs : P s) :
    P (walkPayload visit payload node em visitRoot s) := by
  unfold walkPayload
  have h1 := hv [] payload node em.edge s hs
  cases visitRoot
  · simp only [Bool.false_eq_true, if_false, ite_false]
    exact walkInto_preserves P visit hv [] payload node em s hs
  · simp only [if_true, ite_true]
    cases hcond : (visit [] payload node em.edge s).1
    · simp only [hcond, Bool.false_eq_true, if_false, ite_false]
      exact walkInto_preserves P visit hv [] payload node em _ h1
    · simp only [hcond, if_true, ite_true]
      exact h1

/-! # Phase-by-phase preservation of the parent snapshot (immutability) -/

theorem mergeVisitor_parent (cfg : Configuration) (qv : List (String × Value))
    (cid : NodeId) (path : List PathPart) (pv nv : Value) (pe : Option EdgeArgs)
    (s : MergeSt) :
    (mergeVisitor cfg qv cid path pv nv pe s).2.st.parent = s.st.parent := by
  unfold mergeVisitor putNew
  cases pe <;> dsimp only <;> (repeat' split) <;>
    first
      | rfl
      | simp only [setValue_parent, ensure_parent]

theorem mergeLoop_parent (cfg : Configuration) (qv : List (String × Value))
    (em : EdgeTree) (fuel : Nat) (s : MergeSt) :
    (mergeLoop cfg qv em fuel s).st.parent = s.st.parent := by
  induction fuel generalizing s with
  | zero => rfl
  | succ n ih =>
    unfold mergeLoop
    cases hq : s.queue with
    | nil => rfl
    | cons item rest =>
      rw [ih]
      exact walkPayload_preserves (fun ms => ms.st.parent = s.st.parent)
        (mergeVisitor cfg qv item.containerId)
        (fun path pv nv pe ms hms => (mergeVisitor_parent cfg qv _ path pv nv pe ms).trans hms)
        item.containerPayload (EditorState.get s.st item.containerId) em item.visitRoot
        { s with queue := rest } rfl

theorem applyReferenceEdit_parent (acc : EditorState × List NodeId) (e : ReferenceEdit) :
    (applyReferenceEdit acc e).1.parent = acc.1.parent := by
  unfold applyReferenceEdit
  cases e.nextNodeId <;> cases e.prevNodeId <;>
    dsimp only <;>
    simp only [stAddRef_parent, stRemoveRef_parent, ensure_parent, setValue_parent]

theorem mergeReferenceEdits_parent (st : EditorState) (edits : List ReferenceEdit) :
    (mergeReferenceEdits st edits).1.parent = st.parent := by
  unfold mergeReferenceEdits
  suffices h : ∀ acc : EditorState × List NodeId,
      (edits.foldl applyReferenceEdit acc).1.parent = acc.1.parent from h (st, [])
  induction edits with
  | nil => intro acc; rfl
  | cons e rest ih =>
    intro acc
    rw [List.foldl_cons, ih, applyReferenceEdit_parent]

theorem rebuildStep_parent (node : Value) (init : EditorState × List NodeId)
    (inbound : List NodeReference) :
    (rebuildStep node init inbound).1.parent = init.1.parent := by
  induction inbound generalizing init with
  | nil => rfl
  | cons r rest ih =>
    unfold rebuildStep
    rw [List.foldl_cons]
    show (rebuildStep node _ rest).1.parent = _
    rw [ih]
    cases r.path
    · rfl
    · dsimp only
      split
      · rw [setValue_parent]
      · rw [setValue_parent]

theorem rebuildLoop_parent (fuel : Nat) (st : EditorState) (queue : List NodeId) :
    (rebuildLoop fuel st queue).1.parent = st.parent := by
  induction fuel generalizing st queue with
  | zero => rfl
  | succ n ih =>
    unfold rebuildLoop
    cases queue with
    | nil => rfl
    | cons nodeId rest =>
      dsimp only
      cases h : EditorState.getSnapshot st nodeId with
      | none => simp only [h]; exact ih st rest
      | some snapshot =>
        simp only [h]
        cases hi : snapshot.inbound with
        | none => simp only [hi]; exact ih st rest
        | some inbound =>
          simp only [hi]
          rw [ih, rebuildStep_parent]

theorem rebuildInboundReferences_parent (fuel : Nat) (st : EditorState) :
    (rebuildInboundReferences fuel st).1.parent = st.parent := by
  unfold rebuildInboundReferences
  rw [rebuildLoop_parent]

theorem orphanSweep_parent (nodeId : NodeId) (outbound : List NodeReference)
    (acc : EditorState × List NodeId) :
    (outbound.foldl (orphanSweepStep nodeId) acc).1.parent = acc.1.parent := by
  induction outbound generalizing acc with
  | nil => rfl
  | cons r rest ih =>
    rw [List.foldl_cons, ih]
    unfold orphanSweepStep
    dsimp only
    split <;> rw [stRemoveRef_parent]

theorem removeOrphanLoop_parent (fuel : Nat) (st : EditorState) (queue : List NodeId) :
    (removeOrphanLoop fuel st queue).1.parent = st.parent := by
  induction fuel generalizing st queue with
  | zero => rfl
  | succ n ih =>
    unfold removeOrphanLoop
    cases queue with
    | nil => rfl
    | cons nodeId rest =>
      dsimp only
      cases h : EditorState.getSnapshot st nodeId with
      | none => simp only [h]; exact ih st rest
      | some node =>
        simp only [h]
        cases ho : node.outbound with
        | none => simp only [ho]; exact ih _ rest
        | some outbound =>
          simp only [ho]
          rw [ih, orphanSweep_parent]

theorem removeOrphanedNodes_parent (fuel : Nat) (st : EditorState) (ids : List NodeId) :
    (removeOrphanedNodes fuel st ids).1.parent = st.parent := by
  unfold removeOrphanedNodes
  rw [removeOrphanLoop_parent]

theorem mergePayload_parent (cfg : Configuration) (em : EdgeTree)
    (qv : List (String × Value)) (fuel : Nat) (rootId : NodeId) (payload : Value)
    (st : EditorState) :
    (mergePayload cfg em qv fuel rootId payload st).parent = st.parent := by
  unfold mergePayload mergePayloadValues
  rw [removeOrphanedNodes_parent, rebuildInboundReferences_parent,
    mergeReferenceEdits_parent]
  exact mergeLoop_parent cfg qv em fuel _

theorem mergeAll_parent (cfg : Configuration) (fuel : Nat) (specs : List MergeSpec)
    (st : EditorState) : (mergeAll cfg fuel specs st).parent = st.parent := by
  unfold mergeAll
  induction specs generalizing st with
  | nil => rfl
  | cons m rest ih =>
    rw [List.foldl_cons, ih, mergePayload_parent]

/-! # Association-list lemmas and the commit bridge -/

theorem alistGet_set_self {β : Type} (l : List (NodeId × β)) (k : NodeId) (v : β) :
    alistGet (alistSet l k v) k = some v := by
  induction l with
  | nil => simp [alistSet, alistGet]
  | cons e rest ih =>
    by_cases h : e.1 = k
    · simp [alistSet, alistGet, h]
    · simp [alistSet, alistGet, h, ih]

theorem alistGet_set_ne {β : Type} (l : List (NodeId × β)) (k id : NodeId) (v : β)
    (h : k ≠ id) : alistGet (alistSet l k v) id = alistGet l id := by
  induction l with
  | nil => simp only [alistSet, alistGet, if_neg h]
  | cons e rest ih =>
    unfold alistSet
    by_cases he : e.1 = k
    · rw [if_pos he]
      unfold alistGet
      rw [if_neg (fun hh => h (he.symm.trans hh)), if_neg (fun hh => h (he.symm.trans hh))]
    · rw [if_neg he]
      unfold alistGet
      by_cases hid : e.1 = id
      · rw [if_pos hid, if_pos hid]
      · rw [if_neg hid, if_neg hid, ih]

theorem alistGet_remove_ne {β : Type} (l : List (NodeId × β)) (k id : NodeId)
    (h : k ≠ id) : alistGet (alistRemove l k) id = alistGet l id := by
  induction l with
  | nil => rfl
  | cons e rest ih =>
    unfold alistRemove at ih ⊢
    rw [List.filter_cons]
    by_cases he : e.1 = k
    · rw [if_neg (by simp [he]), ih]
      simp only [alistGet]
      rw [if_neg (fun hh => h (he.symm.trans hh))]
    · rw [if_pos (by simp [he])]
      unfold alistGet
      by_cases hid : e.1 = id
      · rw [if_pos hid, if_pos hid]
      · rw [if_neg hid, if_neg hid, ih]

theorem alistGet_remove_self {β : Type} (l : List (NodeId × β)) (k : NodeId) :
    alistGet (alistRemove l k) k = none := by
  induction l with
  | nil => rfl
  | cons e rest ih =>
    unfold alistRemove at ih ⊢
    rw [List.filter_cons]
    by_cases he : e.1 = k
    · rw [if_neg (by simp [he])]
      exact ih
    · rw [if_pos (by simp [he])]
      unfold alistGet
      rw [if_neg he, ih]

theorem alistGet_eq_none_iff {β : Type} (l : List (NodeId × β)) (id : NodeId) :
    alistGet l id = none ↔ id ∉ l.map Prod.fst := by
  induction l with
  | nil => simp [alistGet]
  | cons e rest ih =>
    by_cases he : e.1 = id
    · simp [alistGet, he]
    · simp [alistGet, he, ih, Ne.symm he]

/-- The step function of `commit`'s overlay fold. -/
def commitStep (acc : List (NodeId × NodeSnapshot)) (e : NodeId × Option NodeSnapshot) :
    List (NodeId × NodeSnapshot) :=
  match e.2 with
  | none => alistRemove acc e.1
  | some snap => alistSet acc e.1 snap

theorem commit_eq_fold (st : EditorState) :
    (commit st).snapshot.values = st.newNodes.foldl commitStep st.parent.values := rfl

theorem foldl_commitStep_not_mem (l : List (NodeId × Option NodeSnapshot))
    (acc : List (NodeId × NodeSnapshot)) (id : NodeId) (h : id ∉ l.map Prod.fst) :
    alistGet (l.foldl commitStep acc) id = alistGet acc id := by
  induction l generalizing acc with
  | nil => rfl
  | cons e rest ih =>
    simp only [List.map_cons, List.mem_cons, not_or] at h
    rw [List.foldl_cons, ih _ h.2]
    unfold commitStep
    cases e.2 with
    | none => exact alistGet_remove_ne acc e.1 id (fun hh => h.1 hh.symm)
    | some snap => exact alistGet_set_ne acc e.1 id snap (fun hh => h.1 hh.symm)

theorem foldl_commitStep_mem (l : List (NodeId × Option NodeSnapshot))
    (acc : List (NodeId × NodeSnapshot)) (id : NodeId) (v : Option NodeSnapshot)
    (hnd : (l.map Prod.fst).Nodup) (hget : alistGet l id = some v) :
    alistGet (l.foldl commitStep acc) id = v := by
  induction l generalizing acc with
  | nil => exact absurd hget (by simp [alistGet])
  | cons e rest ih =>
    simp only [List.map_cons, List.nodup_cons] at hnd
    rw [List.foldl_cons]
    by_cases he : e.1 = id
    · have hv : v = e.2 := by
        unfold alistGet at hget
        rw [if_pos he] at hget
        exact (Option.some_inj.mp hget).symm
      have hrest : id ∉ rest.map Prod.fst := he ▸ hnd.1
      rw [foldl_commitStep_not_mem rest _ id hrest, hv]
      unfold commitStep
      cases e.2 with
      | none => exact he ▸ alistGet_remove_self acc e.1
      | some snap => exact he ▸ alistGet_set_self acc e.1 snap
    · unfold alistGet at hget
      rw [if_neg he] at hget
      exact ih _ hnd.2 hget

/-- The committed snapshot is exactly the editor's view: staged records and
tombstones overlaid on the parent. -/
theorem commit_getSnapshot (st : EditorState)
    (hnd : (st.newNodes.map Prod.fst).Nodup) (id : NodeId) :
    (commit st).snapshot.getSnapshot id = st.getSnapshot id := by
  show alistGet (st.newNodes.foldl commitStep st.parent.values) id = _
  unfold EditorState.getSnapshot
  cases h : alistGet st.newNodes id with
  | none =>
    rw [foldl_commitStep_not_mem st.newNodes _ id ((alistGet_eq_none_iff _ _).mp h)]
    rfl
  | some v => exact foldl_commitStep_mem st.newNodes _ id v hnd h

/-- An id the transaction never staged keeps the parent's record in the
committed snapshot (no `Nodup` assumption needed). -/
theorem commit_getSnapshot_untouched (st : EditorState) (id : NodeId)
    (h : id ∉ st.newNodes.map Prod.fst) :
    (commit st).snapshot.getSnapshot id = st.parent.getSnapshot id :=
  foldl_commitStep_not_mem st.newNodes _ id h

/-! # The rebuild walk never touches `editedNodeIds` -/

theorem rebuildStep_edited (node : Value) (init : EditorState × List NodeId)
    (inbound : List NodeReference) :
    (rebuildStep node init inbound).1.editedNodeIds = init.1.editedNodeIds := by
  induction inbound generalizing init with
  | nil => rfl
  | cons r rest ih =>
    unfold rebuildStep
    rw [List.foldl_cons]
    show (rebuildStep node _ rest).1.editedNodeIds = _
    rw [ih]
    cases r.path
    · rfl
    · dsimp only
      split
      · rw [setValue_edited_false]
      · rw [setValue_edited_false]

theorem rebuildLoop_edited (fuel : Nat) (st : EditorState) (queue : List NodeId) :
    (rebuildLoop fuel st queue).1.editedNodeIds = st.editedNodeIds := by
  induction fuel generalizing st queue with
  | zero => rfl
  | succ n ih =>
    unfold rebuildLoop
    cases queue with
    | nil => rfl
    | cons nodeId rest =>
      dsimp only
      cases h : EditorState.getSnapshot st nodeId with
      | none => simp only [h]; exact ih st rest
      | some snapshot =>
        simp only [h]
        cases hi : snapshot.inbound with
        | none => simp only [hi]; exact ih st rest
        | some inbound =>
          simp only [hi]
          rw [ih, rebuildStep_edited]

theorem rebuildInboundReferences_edited (fuel : Nat) (st : EditorState) :
    (rebuildInboundReferences fuel st).1.editedNodeIds = st.editedNodeIds := by
  unfold rebuildInboundReferences
  rw [rebuildLoop_edited]

/-! # Claim theorems -/

/-- **C3.** For every parent snapshot and every sequence of `mergePayload`
calls on an editor opened over it, the parent snapshot (every record, value
tree and edge list) is unchanged by the merges and by `commit()`: the
editor's `parent` field is the very same snapshot afterwards, and every id
the transaction never staged keeps the parent's record in the committed
snapshot — all mutation is confined to the staged `newNodes` table.  (Object
identity is modelled structurally: the source never writes through the
parent reference, which this embedding renders as the `parent` component
being preserved by every operation.) -/
theorem parent_snapshot_immutable (cfg : Configuration) (fuel : Nat)
    (specs : List MergeSpec) (parent : GraphSnapshot) :
    (mergeAll cfg fuel specs (EditorState.init parent)).parent = parent ∧
    (∀ id, id ∉ (mergeAll cfg fuel specs (EditorState.init parent)).newNodes.map Prod.fst →
      (commit (mergeAll cfg fuel specs (EditorState.init parent))).snapshot.getSnapshot id =
        parent.getSnapshot id) := by
  constructor
  · exact mergeAll_parent cfg fuel specs _
  · intro id hid
    rw [commit_getSnapshot_untouched _ id hid, mergeAll_parent]
    rfl

/-- Witness for C3: after scenario S1 over the empty snapshot, an id the
merge never mentioned is still absent from the committed snapshot, and the
parent is untouched. -/
theorem parent_snapshot_immutable_witness :
    (mergeAll testConfig 100 [⟨s1EdgeMap, s1Vars, QueryRootId, s1Payload⟩]
      (EditorState.init GraphSnapshot.empty)).parent = GraphSnapshot.empty ∧
    (commit (mergeAll testConfig 100 [⟨s1EdgeMap, s1Vars, QueryRootId, s1Payload⟩]
      (EditorState.init GraphSnapshot.empty))).snapshot.getSnapshot "unrelated" = none := by
  constructor
  · exact (parent_snapshot_immutable testConfig 100
      [⟨s1EdgeMap, s1Vars, QueryRootId, s1Payload⟩] GraphSnapshot.empty).1
  · rw [(parent_snapshot_immutable testConfig 100
      [⟨s1EdgeMap, s1Vars, QueryRootId, s1Payload⟩] GraphSnapshot.empty).2 "unrelated"
      (by decide)]
    rfl

/-- **C8.** Deep-sets performed during the inbound-rebuild phase use
`isEdit = false` and never add a holder to `editedNodeIds`: the rebuild
phase leaves `editedNodeIds` exactly as it was, for every state and fuel.
Concretely (scenario S4): after indirectly updating the entity `"1"`
referenced by a parameterized node, the committed `editedNodeIds` is exactly
`{"1", QueryRoot}` — the parameterized node, whose staged value was
republished by the rebuild, is not in it. -/
theorem rebuild_writes_never_edit :
    (∀ (fuel : Nat) (st : EditorState),
      (rebuildInboundReferences fuel st).1.editedNodeIds = st.editedNodeIds) ∧
    s4Committed.editedNodeIds = ["1", QueryRootId] ∧
    s1ParamId ∉ s4Committed.editedNodeIds := by
  refine ⟨rebuildInboundReferences_edited, rfl, ?_⟩
  rw [show s4Committed.editedNodeIds = ["1", QueryRootId] from rfl]
  decide

/-- **C6.** Scenario S1: merging
`query($id){ foo(id:$id, withExtra:true){ name extra } }` with `{id: 1}` and
payload `{foo: {name: "Foo", extra: false}}` into an empty snapshot and
committing yields a node at the expected parameterized id holding
`{name: "Foo", extra: false}`; `QueryRoot.outbound = [{id: param,
path: undefined}]`; `param.inbound = [{id: QueryRoot, path: undefined}]`;
`foo` is absent from QueryRoot's own value; and `editedNodeIds` is exactly
`{param}`. -/
theorem parameterized_field_write_expectations :
    s1ParamId = "QueryRoot❖[\"foo\"]❖\x7b\"id\":1,\"withExtra\":true\x7d" ∧
    s1Committed.snapshot.get s1ParamId =
      .vObj [("name", .vStr "Foo"), ("extra", .vBool false)] ∧
    (s1Committed.snapshot.getSnapshot QueryRootId).map NodeSnapshot.outbound =
      some (some [⟨s1ParamId, none⟩]) ∧
    (s1Committed.snapshot.getSnapshot s1ParamId).map NodeSnapshot.inbound =
      some (some [⟨QueryRootId, none⟩]) ∧
    (s1Committed.snapshot.get QueryRootId).objGet "foo" = .vUndef ∧
    s1Committed.editedNodeIds = [s1ParamId] :=
  ⟨rfl, rfl, rfl, rfl, rfl, rfl⟩

/-- **C10.** `_ensureNewSnapshot` on an id that was tombstoned in this
transaction starts from a completely fresh record — `undefined` value, no
inbound and no outbound — and stages it; the parent snapshot's record for
that id is not consulted, so its old value and edges cannot reappear in the
staged state. -/
theorem ensure_after_tombstone_starts_fresh (st : EditorState) (id : NodeId)
    (h : alistGet st.newNodes id = some none) :
    ensureNewSnapshot st id =
      (NodeSnapshot.blank,
        { st with newNodes := alistSet st.newNodes id (some NodeSnapshot.blank) }) := by
  unfold ensureNewSnapshot
  rw [h]

/-- Witness for C10: in the chain-collection scenario the id `"A"` is
tombstoned, and re-ensuring it yields the blank record. -/
theorem ensure_after_tombstone_starts_fresh_witness :
    alistGet chainState2.newNodes "A" = some none ∧
    (ensureNewSnapshot chainState2 "A").1 = NodeSnapshot.blank :=
  ⟨rfl, by rw [ensure_after_tombstone_starts_fresh chainState2 "A" rfl]⟩

/-- **C4 (counterexample).** Re-merging the S1 payload, already identical to
the stored state, yields `editedNodeIds = ∅` — but the container of the
parameterized field (`QueryRoot`) is nevertheless staged in `newNodes`
(`_ensureNewSnapshot` runs unconditionally at a parameterized edge), so the
committed record for `QueryRoot` is a freshly constructed copy, not the
parent snapshot's record object: snapshot equality by object identity of
*every* node record fails. -/
theorem identical_remerge_restages_parameterized_container :
    remergeState.editedNodeIds = [] ∧
    remergeState.newNodes.map Prod.fst = [QueryRootId] :=
  ⟨rfl, rfl⟩

/-- **C4 (amended).** Merging a payload identical to the current state
yields `editedNodeIds = ∅` and a committed snapshot structurally equal to
the parent; node records keep their identity except the containers of
parameterized fields, which are re-staged as structurally equal copies.  For
a payload without parameterized fields nothing at all is staged, so every
record keeps its identity. -/
theorem identical_remerge_structural_sharing :
    remergeState.editedNodeIds = [] ∧
    (commit remergeState).snapshot = s1Committed.snapshot ∧
    remergeState.newNodes.map Prod.fst = [QueryRootId] ∧
    viewerRemergeState.editedNodeIds = [] ∧
    viewerRemergeState.newNodes = [] ∧
    (commit viewerRemergeState).snapshot = viewerBaseline :=
  ⟨rfl, rfl, rfl, rfl, rfl, rfl⟩

/-- **C1 (counterexample).** Two merges from the empty snapshot — first
`{viewer: {id: "A", b: {id: "B", a: {id: "A"}}}}` (creating the reference
cycle `A ↔ B`), then `{viewer: null}` (dropping the only root reference) —
commit to a snapshot in which the records `"A"` and `"B"` still exist yet
are unreachable from the root set by following outbound references:
orphan detection is by emptied inbound lists, and cycle members keep
nonempty inbound lists. -/
theorem unreachable_cycle_persists_after_commit :
    (cycleSnapshot2.getSnapshot "A").isSome = true ∧
    (cycleSnapshot2.getSnapshot "B").isSome = true ∧
    reachableIds cycleSnapshot2 [QueryRootId] = [QueryRootId] ∧
    "A" ∉ reachableIds cycleSnapshot2 [QueryRootId] ∧
    "B" ∉ reachableIds cycleSnapshot2 [QueryRootId] := by
  refine ⟨rfl, rfl, rfl, ?_, ?_⟩ <;>
    · rw [show reachableIds cycleSnapshot2 [QueryRootId] = [QueryRootId] from rfl]
      decide

/-- **C1 (amended).** Nodes whose inbound edge list empties during the
transaction are deleted, transitively: clearing the only root reference to
the chain `QueryRoot → A → B` removes both `A` and `B`, leaving a snapshot
whose only record is the root (trivially reachable).  But unreachability is
not detected through cycles: in the cycle counterexample the surviving
records `A` and `B` both retain nonempty inbound lists, which is why the
collector keeps them. -/
theorem emptied_inbound_nodes_are_collected :
    (commit chainState2).snapshot.getSnapshot "A" = none ∧
    (commit chainState2).snapshot.getSnapshot "B" = none ∧
    (commit chainState2).snapshot.values.map Prod.fst = [QueryRootId] ∧
    ((cycleSnapshot2.getSnapshot "A").bind NodeSnapshot.inbound).isSome = true ∧
    ((cycleSnapshot2.getSnapshot "B").bind NodeSnapshot.inbound).isSome = true :=
  ⟨rfl, rfl, rfl, rfl, rfl⟩

/-- **C7.** In the payload walk, at a non-parameterized position the visitor
(a) treats the identity as unchanged (`nextNodeId := prevNodeId`) whenever
the current node value holds a known entity, the payload value yields no
entity id, and the payload value is truthy — merging the payload into the
known entity (the walk is enqueued at the previous id with the editor state
and edit list untouched); and (b) appends a reference edit exactly when
`prevNodeId` differs from the adjusted `nextNodeId`. -/
theorem mergeVisitor_identity_fallback (cfg : Configuration)
    (qv : List (String × Value)) (cid : NodeId) (path : List PathPart)
    (pv nv : Value) (s : MergeSt) :
    ((mergeVisitor cfg qv cid path pv nv none s).2.edits =
      if entityIdOf cfg nv ≠
          (if ((entityIdOf cfg pv).isNone && pv.truthy) then entityIdOf cfg nv
            else entityIdOf cfg pv)
        then s.edits ++ [⟨cid, path, entityIdOf cfg nv,
          (if ((entityIdOf cfg pv).isNone && pv.truthy) then entityIdOf cfg nv
            else entityIdOf cfg pv)⟩]
        else s.edits) ∧
    (∀ p, entityIdOf cfg nv = some p → entityIdOf cfg pv = none → pv.truthy = true →
      (mergeVisitor cfg qv cid path pv nv none s).2.st = s.st ∧
      (mergeVisitor cfg qv cid path pv nv none s).2.edits = s.edits ∧
      (mergeVisitor cfg qv cid path pv nv none s).2.queue = ⟨p, pv, false⟩ :: s.queue) := by
  constructor
  · unfold mergeVisitor
    dsimp only
    generalize entityIdOf cfg pv = n0
    generalize entityIdOf cfg nv = pr
    cases pr with
    | none =>
      cases n0 with
      | none =>
        rw [if_neg (show ¬(((none : Option NodeId).isSome ||
          (none : Option NodeId).isSome) = true) by simp)]
        simp only [ite_self]
        rw [if_neg (show ¬((none : Option NodeId) ≠ none) from fun h => h rfl)]
        split
        · split <;> rfl
        · split <;> rfl
      | some y =>
        rw [if_pos (show (((none : Option NodeId).isSome ||
          (some y : Option NodeId).isSome) = true) by simp)]
        rw [if_neg (show ¬(((some y : Option NodeId).isNone && pv.truthy) = true) by simp)]
        rw [if_pos (show (none : Option NodeId) ≠ some y by simp)]
        rfl
    | some x =>
      cases n0 with
      | none =>
        rw [if_pos (show (((some x : Option NodeId).isSome ||
          (none : Option NodeId).isSome) = true) by simp)]
        cases ht : pv.truthy with
        | true =>
          rw [if_pos (show (((none : Option NodeId).isNone && true) = true) by simp)]
          rw [if_neg (show ¬((some x : Option NodeId) ≠ some x) from fun h => h rfl)]
          rw [if_neg (show ¬((some x : Option NodeId) ≠ some x) from fun h => h rfl)]
        | false =>
          rw [if_neg (show ¬(((none : Option NodeId).isNone && false) = true) by simp)]
          rw [if_pos (show (some x : Option NodeId) ≠ none by simp)]
          rfl
      | some y =>
        rw [if_pos (show (((some x : Option NodeId).isSome ||
          (some y : Option NodeId).isSome) = true) by simp)]
        rw [if_neg (show ¬(((some y : Option NodeId).isNone && pv.truthy) = true) by simp)]
        by_cases hxy : x = y
        · subst hxy
          rw [if_neg (show ¬((some x : Option NodeId) ≠ some x) from fun h => h rfl)]
          rw [if_neg (show ¬((some x : Option NodeId) ≠ some x) from fun h => h rfl)]
        · rw [if_pos (show (some x : Option NodeId) ≠ some y by simp [hxy])]
          rw [if_pos (show (some x : Option NodeId) ≠ some y by simp [hxy])]
  · intro p hprev hnext0 htruthy
    unfold mergeVisitor
    dsimp only
    rw [hprev, hnext0, htruthy]
    rw [if_pos (show (((some p : Option NodeId).isSome ||
      (none : Option NodeId).isSome) = true) by simp)]
    rw [if_pos (show (((none : Option NodeId).isNone && true) = true) by simp)]
    rw [if_neg (show ¬((some p : Option NodeId) ≠ some p) from fun h => h rfl)]
    exact ⟨rfl, rfl, rfl⟩

/-- Witness for C7: a payload object without an `id` merged at a position
whose stored value is the entity `7` records no edit, leaves the state
untouched, and enqueues the walk at `"7"`. -/
theorem mergeVisitor_identity_fallback_witness :
    (mergeVisitor testConfig [] "c" [.field "x"] (.vObj [("extra", .vBool true)])
      (.vObj [("id", .vInt 7)]) none
      ⟨EditorState.init GraphSnapshot.empty, [], []⟩).2.edits = [] ∧
    (mergeVisitor testConfig [] "c" [.field "x"] (.vObj [("extra", .vBool true)])
      (.vObj [("id", .vInt 7)]) none
      ⟨EditorState.init GraphSnapshot.empty, [], []⟩).2.queue =
      [⟨"7", .vObj [("extra", .vBool true)], false⟩] := by
  have h := (mergeVisitor_identity_fallback testConfig [] "c" [.field "x"]
    (.vObj [("extra", .vBool true)]) (.vObj [("id", .vInt 7)])
    ⟨EditorState.init GraphSnapshot.empty, [], []⟩).2 "7" rfl rfl rfl
  exact ⟨h.2.1, h.2.2⟩

/-- **C5 (counterexample).** Two argument mappings that are equal as
key–value maps (same `lookup` at every key; one is a permutation of the
other) but differ in key insertion order produce different parameterized
ids byte for byte: `nodeIdForParameterizedValue` serializes `args` with
`JSON.stringify`, which follows insertion order and does not sort keys. -/
theorem paramId_sensitive_to_key_insertion_order :
    ([("a", Value.vInt 1), ("b", Value.vInt 2)] : List (String × Value)).Perm
      [("b", Value.vInt 2), ("a", Value.vInt 1)] ∧
    (∀ k : String,
      ([("a", Value.vInt 1), ("b", Value.vInt 2)] : List (String × Value)).lookup k =
      ([("b", Value.vInt 2), ("a", Value.vInt 1)] : List (String × Value)).lookup k) ∧
    nodeIdForParameterizedValue QueryRootId [.field "foo"]
        [("a", .vInt 1), ("b", .vInt 2)] ≠
      nodeIdForParameterizedValue QueryRootId [.field "foo"]
        [("b", .vInt 2), ("a", .vInt 1)] := by
  refine ⟨List.Perm.swap _ _ _, ?_, by decide⟩
  intro k
  by_cases h1 : k = "a"
  · subst h1; rfl
  · by_cases h2 : k = "b"
    · subst h2; rfl
    · have e1 : (k == "a") = false := by simp [h1]
      have e2 : (k == "b") = false := by simp [h2]
      simp [List.lookup, e1, e2]

/-- **C5 (amended).** The parameterized id is a deterministic function of
`(containerId, path, args in insertion order)`.  When both argument mappings
are in the canonical order the spec prescribes — keys strictly ascending by
Unicode code point — equal mappings produce the same id byte for byte;
mappings equal as maps but differing in insertion order may produce
different ids, since `JSON.stringify` serializes fields in insertion
order. -/
theorem paramId_deterministic_for_canonical_key_order
    (c : NodeId) (p : List PathPart) (args1 args2 : List (String × Value))
    (h1 : args1.Sorted (fun x y => x.1.data < y.1.data))
    (h2 : args2.Sorted (fun x y => x.1.data < y.1.data))
    (hperm : args1.Perm args2) :
    nodeIdForParameterizedValue c p args1 = nodeIdForParameterizedValue c p args2 := by
  haveI : IsAntisymm (String × Value) (fun x y => x.1.data < y.1.data) :=
    ⟨fun a b hab hba => absurd hba (lt_asymm hab)⟩
  rw [List.eq_of_perm_of_sorted hperm h1 h2]

/-- Witness for C5's amended claim at a concrete sorted argument mapping. -/
theorem paramId_deterministic_for_canonical_key_order_witness :
    List.Sorted (fun (x y : String × Value) => x.1.data < y.1.data)
      [("a", Value.vInt 1), ("b", Value.vInt 2)] ∧
    nodeIdForParameterizedValue "Q" [] [("a", .vInt 1), ("b", .vInt 2)] =
      nodeIdForParameterizedValue "Q" [] [("a", .vInt 1), ("b", .vInt 2)] := by
  constructor
  · decide
  · exact paramId_deterministic_for_canonical_key_order "Q" [] _ _
      (by decide) (by decide) (List.Perm.refl _)

/-! # Termination of the rebuild walk (C9 infrastructure) -/

theorem getSnapshot_putNew_self (st : EditorState) (id : NodeId) (snap : NodeSnapshot) :
    EditorState.getSnapshot (putNew st id snap) id = some snap := by
  unfold putNew EditorState.getSnapshot
  dsimp only
  rw [alistGet_set_self]

theorem getSnapshot_putNew_ne (st : EditorState) (id : NodeId) (snap : NodeSnapshot)
    (id' : NodeId) (h : id' ≠ id) :
    EditorState.getSnapshot (putNew st id snap) id' = EditorState.getSnapshot st id' := by
  unfold putNew EditorState.getSnapshot
  dsimp only
  rw [alistGet_set_ne _ _ _ _ (Ne.symm h)]

theorem ensure_getSnapshot_ne (st : EditorState) (id id' : NodeId) (h : id' ≠ id) :
    EditorState.getSnapshot (ensureNewSnapshot st id).2 id' = EditorState.getSnapshot st id' := by
  unfold ensureNewSnapshot
  cases hn : alistGet st.newNodes id with
  | some v =>
    cases v with
    | some current => rfl
    | none =>
      show EditorState.getSnapshot ⟨st.parent, alistSet st.newNodes id _, _, _⟩ id' = _
      unfold EditorState.getSnapshot
      dsimp only
      rw [alistGet_set_ne _ _ _ _ (Ne.symm h)]
  | none =>
    cases hp : st.parent.getSnapshot id <;>
      · show EditorState.getSnapshot ⟨st.parent, alistSet st.newNodes id _, _, _⟩ id' = _
        unfold EditorState.getSnapshot
        dsimp only
        rw [alistGet_set_ne _ _ _ _ (Ne.symm h)]

theorem ensure_getSnapshot_self (st : EditorState) (id : NodeId) :
    EditorState.getSnapshot (ensureNewSnapshot st id).2 id =
      some (ensureNewSnapshot st id).1 := by
  unfold ensureNewSnapshot
  cases hn : alistGet st.newNodes id with
  | some v =>
    cases v with
    | some current =>
      dsimp only
      unfold EditorState.getSnapshot
      rw [hn]
    | none =>
      dsimp only
      unfold EditorState.getSnapshot
      dsimp only
      rw [alistGet_set_self]
  | none =>
    cases hp : st.parent.getSnapshot id <;>
      · dsimp only
        unfold EditorState.getSnapshot
        dsimp only
        rw [alistGet_set_self]

theorem ensure_fst_snapIds_bound (st : EditorState) (id : NodeId) (U : Finset NodeId)
    (hB : RefsBounded st U) :
    ∀ x ∈ snapIds (ensureNewSnapshot st id).1, x ∈ U := by
  unfold ensureNewSnapshot
  cases hn : alistGet st.newNodes id with
  | some v =>
    cases v with
    | some current =>
      intro x hx
      exact hB id current (by unfold EditorState.getSnapshot; rw [hn]) x hx
    | none =>
      intro x hx
      simp [NodeSnapshot.blank, snapIds] at hx
  | none =>
    cases hp : st.parent.getSnapshot id with
    | some p =>
      intro x hx
      exact hB id p (by unfold EditorState.getSnapshot; rw [hn]; exact hp) x hx
    | none =>
      intro x hx
      simp [snapIds] at hx

theorem ensure_preserves_RefsBounded (st : EditorState) (id : NodeId) (U : Finset NodeId)
    (hB : RefsBounded st U) : RefsBounded (ensureNewSnapshot st id).2 U := by
  intro id' s' hget x hx
  by_cases he : id' = id
  · subst he
    rw [ensure_getSnapshot_self] at hget
    injection hget with h
    subst h
    exact ensure_fst_snapIds_bound st id' U hB x hx
  · rw [ensure_getSnapshot_ne st id id' he] at hget
    exact hB id' s' hget x hx

theorem putNew_preserves_RefsBounded (st : EditorState) (id : NodeId) (snap : NodeSnapshot)
    (U : Finset NodeId) (hB : RefsBounded st U) (hs : ∀ x ∈ snapIds snap, x ∈ U) :
    RefsBounded (putNew st id snap) U := by
  intro id' s' hget x hx
  by_cases he : id' = id
  · subst he
    rw [getSnapshot_putNew_self] at hget
    injection hget with h
    subst h
    exact hs x hx
  · rw [getSnapshot_putNew_ne st id snap id' he] at hget
    exact hB id' s' hget x hx

theorem setValue_preserves_RefsBounded (st : EditorState) (id : NodeId)
    (path : List PathPart) (v : Value) (ie : Bool) (U : Finset NodeId)
    (hB : RefsBounded st U) : RefsBounded (setValue st id path v ie) U := by
  unfold setValue
  cases ie
  · exact putNew_preserves_RefsBounded _ _ _ _
      (ensure_preserves_RefsBounded st id U hB)
      (ensure_fst_snapIds_bound st id U hB)
  · exact putNew_preserves_RefsBounded _ _ _ _
      (ensure_preserves_RefsBounded { st with editedNodeIds := insertSet st.editedNodeIds id }
        id U hB)
      (ensure_fst_snapIds_bound { st with editedNodeIds := insertSet st.editedNodeIds id }
        id U hB)

theorem rebuildStep_bounded (node : Value) (U : Finset NodeId) :
    ∀ (inbound : List NodeReference) (st : EditorState) (q : List NodeId),
      RefsBounded st U → (∀ r ∈ inbound, NodeReference.id r ∈ U) →
      RefsBounded (rebuildStep node (st, q) inbound).1 U ∧
      rebuildMeasure (rebuildStep node (st, q) inbound).1 U
          (rebuildStep node (st, q) inbound).2 ≤
        rebuildMeasure st U q
  | [], st, q, hB, _ => ⟨hB, le_refl _⟩
  | r :: rest, st, q, hB, hin => by
    unfold rebuildStep
    rw [List.foldl_cons]
    show RefsBounded (rebuildStep node _ rest).1 U ∧ _
    cases hr : r.path with
    | none =>
      simp only [hr]
      exact rebuildStep_bounded node U rest st q hB (fun x hx => hin x (List.mem_cons_of_mem r hx))
    | some path =>
      simp only [hr]
      have hB1 : RefsBounded (setValue st r.id path node false) U :=
        setValue_preserves_RefsBounded st r.id path node false U hB
      have hreb : (setValue st r.id path node false).rebuiltNodeIds = st.rebuiltNodeIds :=
        setValue_rebuilt st r.id path node false
      by_cases hmem : r.id ∈ (setValue st r.id path node false).rebuiltNodeIds
      · rw [if_pos hmem]
        have h := rebuildStep_bounded node U rest (setValue st r.id path node false) q hB1
          (fun x hx => hin x (List.mem_cons_of_mem r hx))
        refine ⟨h.1, le_trans h.2 ?_⟩
        unfold rebuildMeasure
        rw [hreb]
      · rw [if_neg hmem]
        have hB2 : RefsBounded
            { setValue st r.id path node false with
              rebuiltNodeIds := (setValue st r.id path node false).rebuiltNodeIds ++ [r.id] }
            U := hB1
        have h := rebuildStep_bounded node U rest _ (r.id :: q) hB2
          (fun x hx => hin x (List.mem_cons_of_mem r hx))
        refine ⟨h.1, le_trans h.2 ?_⟩
        unfold rebuildMeasure
        dsimp only
        rw [hreb] at hmem ⊢
        have hidU : r.id ∈ U := hin r (List.mem_cons_self r rest)
        have hcard : ((U \ (st.rebuiltNodeIds ++ [r.id]).toFinset).card <
            (U \ st.rebuiltNodeIds.toFinset).card) := by
          apply Finset.card_lt_card
          constructor
          · intro y hy
            simp only [Finset.mem_sdiff, List.toFinset_append, List.toFinset_cons,
              List.toFinset_nil, Finset.mem_union, Finset.mem_insert, Finset.mem_singleton,
              List.mem_toFinset, not_or] at hy ⊢
            exact ⟨hy.1, hy.2.1⟩
          · intro hsub
            have h2 := hsub (show r.id ∈ U \ st.rebuiltNodeIds.toFinset by
              rw [Finset.mem_sdiff, List.mem_toFinset]
              exact ⟨hidU, hmem⟩)
            rw [Finset.mem_sdiff, List.mem_toFinset] at h2
            exact h2.2 (List.mem_append_right _ (by simp))
        simp only [List.length_cons]
        omega

theorem rebuildLoop_completes (fuel : Nat) :
    ∀ (st : EditorState) (q : List NodeId) (U : Finset NodeId),
      RefsBounded st U → rebuildMeasure st U q ≤ fuel →
      (rebuildLoop fuel st q).2 = [] := by
  induction fuel with
  | zero =>
    intro st q U hB hm
    unfold rebuildMeasure at hm
    have : q.length = 0 := by omega
    rw [List.length_eq_zero] at this
    subst this
    rfl
  | succ n ih =>
    intro st q U hB hm
    unfold rebuildLoop
    cases q with
    | nil => rfl
    | cons nodeId rest =>
      dsimp only
      unfold rebuildMeasure at hm
      simp only [List.length_cons] at hm
      cases h : EditorState.getSnapshot st nodeId with
      | none =>
        simp only [h]
        exact ih st rest U hB (by unfold rebuildMeasure; omega)
      | some snapshot =>
        simp only [h]
        cases hi : snapshot.inbound with
        | none =>
          simp only [hi]
          exact ih st rest U hB (by unfold rebuildMeasure; omega)
        | some inbound =>
          simp only [hi]
          have hin : ∀ r ∈ inbound, NodeReference.id r ∈ U := by
            intro r hr
            apply hB nodeId snapshot h
            unfold snapIds
            rw [hi]
            exact List.mem_append_left _ (List.mem_map_of_mem NodeReference.id hr)
          have hstep := rebuildStep_bounded snapshot.node U inbound st rest hB hin
          exact ih _ _ U hstep.1 (by
            refine le_trans hstep.2 ?_
            unfold rebuildMeasure
            omega)

theorem rebuildStep_queue_invariant (node : Value) :
    ∀ (inbound : List NodeReference) (init : EditorState × List NodeId),
      (∀ x ∈ init.2, x ∈ init.1.rebuiltNodeIds) → init.2.Nodup →
      (∀ x ∈ (rebuildStep node init inbound).2,
        x ∈ (rebuildStep node init inbound).1.rebuiltNodeIds) ∧
      (rebuildStep node init inbound).2.Nodup
  | [], init, hsub, hnd => ⟨hsub, hnd⟩
  | r :: rest, init, hsub, hnd => by
    unfold rebuildStep
    rw [List.foldl_cons]
    show (∀ x ∈ (rebuildStep node _ rest).2, _) ∧ _
    cases hr : r.path with
    | none =>
      simp only [hr]
      exact rebuildStep_queue_invariant node rest init hsub hnd
    | some path =>
      simp only [hr]
      have hreb : (setValue init.1 r.id path node false).rebuiltNodeIds =
          init.1.rebuiltNodeIds := setValue_rebuilt init.1 r.id path node false
      by_cases hmem : r.id ∈ (setValue init.1 r.id path node false).rebuiltNodeIds
      · rw [if_pos hmem]
        exact rebuildStep_queue_invariant node rest _
          (by intro x hx; rw [hreb]; exact hsub x hx) hnd
      · rw [if_neg hmem]
        apply rebuildStep_queue_invariant node rest
        · intro x hx
          dsimp only at hx ⊢
          rcases List.mem_cons.mp hx with hx | hx
          · subst hx
            exact List.mem_append_right _ (by simp)
          · exact List.mem_append_left _ (hreb ▸ hsub x hx)
        · dsimp only
          refine List.nodup_cons.mpr ⟨?_, hnd⟩
          intro hcontra
          exact hmem (hreb ▸ hsub r.id hcontra)

/-! # Edge-count lemmas (C2 infrastructure) -/

theorem removeOccurrence_none {l : List NodeReference} {t : NodeReference}
    (h : removeOccurrence l t = none) : t ∉ l := by
  induction l with
  | nil => simp
  | cons r rest ih =>
    unfold removeOccurrence at h
    by_cases hr : r = t
    · rw [if_pos hr] at h
      exact Option.noConfusion h
    · rw [if_neg hr] at h
      intro hmem
      rcases List.mem_cons.mp hmem with hmem | hmem
      · exact hr hmem.symm
      · cases ho : removeOccurrence rest t with
        | none => exact ih ho hmem
        | some l' => rw [ho] at h; exact Option.noConfusion h

theorem removeOccurrence_mem {l : List NodeReference} {t : NodeReference}
    {l' : List NodeReference} (h : removeOccurrence l t = some l') : t ∈ l := by
  induction l generalizing l' with
  | nil => exact Option.noConfusion h
  | cons r rest ih =>
    unfold removeOccurrence at h
    by_cases hr : r = t
    · exact hr ▸ List.mem_cons_self r rest
    · rw [if_neg hr] at h
      cases ho : removeOccurrence rest t with
      | none => rw [ho] at h; exact Option.noConfusion h
      | some rest' => exact List.mem_cons_of_mem r (ih ho)

theorem removeOccurrence_count_ne {l : List NodeReference} {t : NodeReference}
    {l' : List NodeReference} (h : removeOccurrence l t = some l') {x : NodeReference}
    (hx : x ≠ t) : l'.count x = l.count x := by
  induction l generalizing l' with
  | nil => exact Option.noConfusion h
  | cons r rest ih =>
    unfold removeOccurrence at h
    by_cases hr : r = t
    · rw [if_pos hr] at h
      injection h with h
      subst h
      subst hr
      rw [List.count_cons_of_ne hx]
    · rw [if_neg hr] at h
      cases ho : removeOccurrence rest t with
      | none => rw [ho] at h; exact Option.noConfusion h
      | some rest' =>
        rw [ho] at h
        injection h with h
        subst h
        rw [List.count_cons, List.count_cons, ih ho]

theorem removeOccurrence_count_self {l : List NodeReference} {t : NodeReference}
    {l' : List NodeReference} (h : removeOccurrence l t = some l') :
    l'.count t = l.count t - 1 := by
  induction l generalizing l' with
  | nil => exact Option.noConfusion h
  | cons r rest ih =>
    unfold removeOccurrence at h
    by_cases hr : r = t
    · rw [if_pos hr] at h
      injection h with h
      subst h
      subst hr
      rw [List.count_cons_self]
      omega
    · rw [if_neg hr] at h
      cases ho : removeOccurrence rest t with
      | none => rw [ho] at h; exact Option.noConfusion h
      | some rest' =>
        rw [ho] at h
        injection h with h
        subst h
        have hmem := removeOccurrence_mem ho
        have hpos : 0 < rest.count t := List.count_pos_iff_mem.mpr hmem
        have hne : t ≠ r := fun hh => hr hh.symm
        rw [List.count_cons_of_ne hne, List.count_cons_of_ne hne, ih ho]

theorem removeRef_count (l : List NodeReference) (t x : NodeReference) :
    (removeRef l t).count x = l.count x - (if x = t then 1 else 0) := by
  unfold removeRef
  cases ho : removeOccurrence l t with
  | none =>
    have ht := removeOccurrence_none ho
    by_cases hx : x = t
    · subst hx
      rw [if_pos rfl, List.count_eq_zero.mpr ht]
    · rw [if_neg hx, Nat.sub_zero]
  | some l' =>
    by_cases hx : x = t
    · subst hx
      rw [if_pos rfl]
      exact removeOccurrence_count_self ho
    · rw [if_neg hx, Nat.sub_zero]
      exact removeOccurrence_count_ne ho hx

theorem count_append_single (l : List NodeReference) (t x : NodeReference) :
    (l ++ [t]).count x = l.count x + (if x = t then 1 else 0) := by
  rw [List.count_append]
  by_cases hx : x = t
  · subst hx
    rw [if_pos rfl]
    simp [List.count_cons]
  · rw [if_neg hx]
    simp [List.count_cons, hx]

/-! ## Record-level effects of the reference utilities -/

theorem setRefs_refs_same (s : NodeSnapshot) (d : Direction)
    (v : Option (List NodeReference)) : (s.setRefs d v).refs d = v := by
  cases d <;> rfl

theorem setRefs_refs_other (s : NodeSnapshot) {d d' : Direction}
    (v : Option (List NodeReference)) (h : d' ≠ d) :
    (s.setRefs d v).refs d' = s.refs d' := by
  cases d <;> cases d' <;> first | rfl | exact (h rfl).elim

theorem setRefs_node (s : NodeSnapshot) (d : Direction)
    (v : Option (List NodeReference)) : (s.setRefs d v).node = s.node := by
  cases d <;> rfl

theorem addNodeReference_same (d : Direction) (s : NodeSnapshot) (id : NodeId)
    (p : Option (List PathPart)) :
    ((addNodeReference d s id p).refs d).getD [] = (s.refs d).getD [] ++ [⟨id, p⟩] := by
  unfold addNodeReference
  rw [setRefs_refs_same]
  rfl

theorem addNodeReference_other {d d' : Direction} (s : NodeSnapshot) (id : NodeId)
    (p : Option (List PathPart)) (h : d' ≠ d) :
    (addNodeReference d s id p).refs d' = s.refs d' := by
  unfold addNodeReference
  rw [setRefs_refs_other _ _ h]

theorem removeNodeReference_same (d : Direction) (s : NodeSnapshot) (id : NodeId)
    (p : Option (List PathPart)) :
    (((removeNodeReference d s id p).1.refs d).getD []) =
      removeRef ((s.refs d).getD []) ⟨id, p⟩ := by
  unfold removeNodeReference removeRef
  cases hl : s.refs d with
  | none =>
    dsimp only
    rw [hl]
    rfl
  | some l =>
    dsimp only
    simp only [Option.getD_some]
    cases ho : removeOccurrence l ⟨id, p⟩ with
    | none =>
      dsimp only
      rw [hl]
      rfl
    | some rest =>
      cases rest with
      | nil => rw [setRefs_refs_same]; rfl
      | cons a as => rw [setRefs_refs_same]; rfl

theorem removeNodeReference_other {d d' : Direction} (s : NodeSnapshot) (id : NodeId)
    (p : Option (List PathPart)) (h : d' ≠ d) :
    (removeNodeReference d s id p).1.refs d' = s.refs d' := by
  unfold removeNodeReference
  cases hl : s.refs d with
  | none => rfl
  | some l =>
    dsimp only
    cases ho : removeOccurrence l ⟨id, p⟩ with
    | none => rfl
    | some rest =>
      cases rest with
      | nil => rw [setRefs_refs_other _ _ h]
      | cons a as => rw [setRefs_refs_other _ _ h]

theorem removeNodeReference_node (d : Direction) (s : NodeSnapshot) (id : NodeId)
    (p : Option (List PathPart)) : (removeNodeReference d s id p).1.node = s.node := by
  unfold removeNodeReference
  cases hl : s.refs d with
  | none => rfl
  | some l =>
    dsimp only
    cases ho : removeOccurrence l ⟨id, p⟩ with
    | none => rfl
    | some rest =>
      cases rest with
      | nil => rw [setRefs_node]
      | cons a as => rw [setRefs_node]

theorem removeNodeReference_emptied (d : Direction) (s : NodeSnapshot) (id : NodeId)
    (p : Option (List PathPart)) :
    (removeNodeReference d s id p).2 = true →
    (removeNodeReference d s id p).1.refs d = none := by
  unfold removeNodeReference
  cases hl : s.refs d with
  | none => intro h; exact absurd h (by simp)
  | some l =>
    dsimp only
    cases ho : removeOccurrence l ⟨id, p⟩ with
    | none => intro h; exact absurd h (by simp)
    | some rest =>
      cases rest with
      | nil => intro _; exact setRefs_refs_same s d none
      | cons a as => intro h; exact absurd h (by simp)

/-! ## View-level effects of the staged primitives -/

theorem ensure_view (st : EditorState) (id h : NodeId) :
    outRefs (EditorState.getSnapshot (ensureNewSnapshot st id).2 h) =
      outRefs (EditorState.getSnapshot st h) ∧
    inRefs (EditorState.getSnapshot (ensureNewSnapshot st id).2 h) =
      inRefs (EditorState.getSnapshot st h) ∧
    (EditorState.getSnapshot (ensureNewSnapshot st id).2 h).bind NodeSnapshot.inbound =
      (EditorState.getSnapshot st h).bind NodeSnapshot.inbound := by
  by_cases he : h = id
  · subst he
    rw [ensure_getSnapshot_self]
    unfold ensureNewSnapshot
    cases hn : alistGet st.newNodes h with
    | some v =>
      cases v with
      | some current =>
        dsimp only
        unfold EditorState.getSnapshot
        rw [hn]
        exact ⟨rfl, rfl, rfl⟩
      | none =>
        dsimp only
        unfold EditorState.getSnapshot
        rw [hn]
        exact ⟨rfl, rfl, rfl⟩
    | none =>
      cases hp : st.parent.getSnapshot h with
      | some p =>
        dsimp only
        unfold EditorState.getSnapshot
        rw [hn, hp]
        exact ⟨rfl, rfl, rfl⟩
      | none =>
        dsimp only
        unfold EditorState.getSnapshot
        rw [hn, hp]
        exact ⟨rfl, rfl, rfl⟩
  · rw [ensure_getSnapshot_ne st id h he]
    exact ⟨rfl, rfl, rfl⟩

theorem setValue_view (st : EditorState) (id : NodeId) (path : List PathPart)
    (v : Value) (ie : Bool) (h : NodeId) :
    outRefs (EditorState.getSnapshot (setValue st id path v ie) h) =
      outRefs (EditorState.getSnapshot st h) ∧
    inRefs (EditorState.getSnapshot (setValue st id path v ie) h) =
      inRefs (EditorState.getSnapshot st h) ∧
    (EditorState.getSnapshot (setValue st id path v ie) h).bind NodeSnapshot.inbound =
      (EditorState.getSnapshot st h).bind NodeSnapshot.inbound := by
  have main : ∀ st' : EditorState,
      outRefs (EditorState.getSnapshot
        (putNew (ensureNewSnapshot st' id).2 id
          { (ensureNewSnapshot st' id).1 with
            node := deepSet (ensureNewSnapshot st' id).1.node path v }) h) =
        outRefs (EditorState.getSnapshot st' h) ∧
      inRefs (EditorState.getSnapshot
        (putNew (ensureNewSnapshot st' id).2 id
          { (ensureNewSnapshot st' id).1 with
            node := deepSet (ensureNewSnapshot st' id).1.node path v }) h) =
        inRefs (EditorState.getSnapshot st' h) ∧
      (EditorState.getSnapshot
        (putNew (ensureNewSnapshot st' id).2 id
          { (ensureNewSnapshot st' id).1 with
            node := deepSet (ensureNewSnapshot st' id).1.node path v }) h).bind
          NodeSnapshot.inbound =
        (EditorState.getSnapshot st' h).bind NodeSnapshot.inbound := by
    intro st'
    by_cases he : h = id
    · subst he
      rw [getSnapshot_putNew_self]
      have hv := ensure_view st' h h
      rw [ensure_getSnapshot_self] at hv
      exact hv
    · rw [getSnapshot_putNew_ne _ _ _ _ he]
      exact ensure_view st' id h
  unfold setValue
  cases ie
  · exact main st
  · exact main { st with editedNodeIds := insertSet st.editedNodeIds id }

theorem stAddRef_outb_view (st : EditorState) (o rid : NodeId)
    (p : Option (List PathPart)) (h : NodeId) :
    outRefs (EditorState.getSnapshot (stAddRef st .outb o rid p) h) =
      (if h = o then outRefs (EditorState.getSnapshot st h) ++ [⟨rid, p⟩]
        else outRefs (EditorState.getSnapshot st h)) ∧
    inRefs (EditorState.getSnapshot (stAddRef st .outb o rid p) h) =
      inRefs (EditorState.getSnapshot st h) ∧
    (EditorState.getSnapshot (stAddRef st .outb o rid p) h).bind NodeSnapshot.inbound =
      (EditorState.getSnapshot st h).bind NodeSnapshot.inbound := by
  unfold stAddRef
  have hv := ensure_view st o h
  by_cases he : h = o
  · subst he
    rw [getSnapshot_putNew_self, if_pos rfl]
    rw [ensure_getSnapshot_self] at hv
    refine ⟨?_, ?_, ?_⟩
    · show ((addNodeReference .outb _ rid p).refs .outb).getD [] = _
      rw [addNodeReference_same]
      rw [show ((ensureNewSnapshot st h).1.refs .outb).getD [] =
        outRefs (some (ensureNewSnapshot st h).1) from rfl]
      rw [hv.1]
    · show ((addNodeReference .outb _ rid p).refs .inb).getD [] = _
      rw [addNodeReference_other _ _ _ (by simp)]
      exact hv.2.1
    · show (addNodeReference .outb _ rid p).inbound = _
      rw [show (addNodeReference .outb (ensureNewSnapshot st h).1 rid p).inbound =
        (addNodeReference .outb (ensureNewSnapshot st h).1 rid p).refs .inb from rfl]
      rw [addNodeReference_other _ _ _ (by simp)]
      exact hv.2.2
  · rw [getSnapshot_putNew_ne _ _ _ _ he, if_neg he]
    exact hv

theorem stAddRef_inb_view (st : EditorState) (o rid : NodeId)
    (p : Option (List PathPart)) (h : NodeId) :
    inRefs (EditorState.getSnapshot (stAddRef st .inb o rid p) h) =
      (if h = o then inRefs (EditorState.getSnapshot st h) ++ [⟨rid, p⟩]
        else inRefs (EditorState.getSnapshot st h)) ∧
    outRefs (EditorState.getSnapshot (stAddRef st .inb o rid p) h) =
      outRefs (EditorState.getSnapshot st h) ∧
    (h ≠ o →
      (EditorState.getSnapshot (stAddRef st .inb o rid p) h).bind NodeSnapshot.inbound =
        (EditorState.getSnapshot st h).bind NodeSnapshot.inbound) := by
  unfold stAddRef
  have hv := ensure_view st o h
  by_cases he : h = o
  · subst he
    rw [getSnapshot_putNew_self, if_pos rfl]
    rw [ensure_getSnapshot_self] at hv
    refine ⟨?_, ?_, fun hc => absurd rfl hc⟩
    · show ((addNodeReference .inb _ rid p).refs .inb).getD [] = _
      rw [addNodeReference_same]
      rw [show ((ensureNewSnapshot st h).1.refs .inb).getD [] =
        inRefs (some (ensureNewSnapshot st h).1) from rfl]
      rw [hv.2.1]
    · show ((addNodeReference .inb _ rid p).refs .outb).getD [] = _
      rw [addNodeReference_other _ _ _ (by simp)]
      exact hv.1
  · rw [getSnapshot_putNew_ne _ _ _ _ he, if_neg he]
    exact ⟨hv.2.1, hv.1, fun _ => hv.2.2⟩

theorem stRemoveRef_outb_view (st : EditorState) (o rid : NodeId)
    (p : Option (List PathPart)) (h : NodeId) :
    outRefs (EditorState.getSnapshot (stRemoveRef st .outb o rid p).1 h) =
      (if h = o then removeRef (outRefs (EditorState.getSnapshot st h)) ⟨rid, p⟩
        else outRefs (EditorState.getSnapshot st h)) ∧
    inRefs (EditorState.getSnapshot (stRemoveRef st .outb o rid p).1 h) =
      inRefs (EditorState.getSnapshot st h) ∧
    (EditorState.getSnapshot (stRemoveRef st .outb o rid p).1 h).bind NodeSnapshot.inbound =
      (EditorState.getSnapshot st h).bind NodeSnapshot.inbound := by
  unfold stRemoveRef
  have hv := ensure_view st o h
  by_cases he : h = o
  · subst he
    rw [getSnapshot_putNew_self, if_pos rfl]
    rw [ensure_getSnapshot_self] at hv
    refine ⟨?_, ?_, ?_⟩
    · show (((removeNodeReference .outb _ rid p).1).refs .outb).getD [] = _
      rw [removeNodeReference_same]
      rw [show ((ensureNewSnapshot st h).1.refs .outb).getD [] =
        outRefs (some (ensureNewSnapshot st h).1) from rfl]
      rw [hv.1]
    · show (((removeNodeReference .outb _ rid p).1).refs .inb).getD [] = _
      rw [removeNodeReference_other _ _ _ (by simp)]
      exact hv.2.1
    · show ((removeNodeReference .outb _ rid p).1).inbound = _
      rw [show ((removeNodeReference .outb (ensureNewSnapshot st h).1 rid p).1).inbound =
        ((removeNodeReference .outb (ensureNewSnapshot st h).1 rid p).1).refs .inb from rfl]
      rw [removeNodeReference_other _ _ _ (by simp)]
      exact hv.2.2
  · rw [getSnapshot_putNew_ne _ _ _ _ he, if_neg he]
    exact hv

theorem stRemoveRef_inb_view (st : EditorState) (o rid : NodeId)
    (p : Option (List PathPart)) (h : NodeId) :
    inRefs (EditorState.getSnapshot (stRemoveRef st .inb o rid p).1 h) =
      (if h = o then removeRef (inRefs (EditorState.getSnapshot st h)) ⟨rid, p⟩
        else inRefs (EditorState.getSnapshot st h)) ∧
    outRefs (EditorState.getSnapshot (stRemoveRef st .inb o rid p).1 h) =
      outRefs (EditorState.getSnapshot st h) ∧
    ((EditorState.getSnapshot st h).bind NodeSnapshot.inbound = none →
      (EditorState.getSnapshot (stRemoveRef st .inb o rid p).1 h).bind NodeSnapshot.inbound =
        none) := by
  unfold stRemoveRef
  have hv := ensure_view st o h
  by_cases he : h = o
  · subst he
    rw [getSnapshot_putNew_self, if_pos rfl]
    rw [ensure_getSnapshot_self] at hv
    refine ⟨?_, ?_, ?_⟩
    · show (((removeNodeReference .inb _ rid p).1).refs .inb).getD [] = _
      rw [removeNodeReference_same]
      rw [show ((ensureNewSnapshot st h).1.refs .inb).getD [] =
        inRefs (some (ensureNewSnapshot st h).1) from rfl]
      rw [hv.2.1]
    · show (((removeNodeReference .inb _ rid p).1).refs .outb).getD [] = _
      rw [removeNodeReference_other _ _ _ (by simp)]
      exact hv.1
    · intro hnone
      have hcur : (ensureNewSnapshot st h).1.inbound = none := by
        have := hv.2.2
        rw [hnone] at this
        exact this
      show ((removeNodeReference .inb _ rid p).1).inbound = none
      unfold removeNodeReference
      rw [show (ensureNewSnapshot st h).1.refs .inb = (ensureNewSnapshot st h).1.inbound
        from rfl, hcur]
      exact hcur
  · rw [getSnapshot_putNew_ne _ _ _ _ he, if_neg he]
    exact ⟨hv.2.1, hv.1, fun hnone => hv.2.2.trans hnone⟩

theorem stRemoveRef_inb_emptied (st : EditorState) (o rid : NodeId)
    (p : Option (List PathPart)) (h : (stRemoveRef st .inb o rid p).2 = true) :
    (EditorState.getSnapshot (stRemoveRef st .inb o rid p).1 o).bind NodeSnapshot.inbound =
      none := by
  unfold stRemoveRef at h ⊢
  rw [getSnapshot_putNew_self]
  show ((removeNodeReference .inb _ rid p).1).inbound = none
  exact removeNodeReference_emptied .inb _ rid p h

/-! ## Duplicate-free keys of the staged table -/

theorem alistSet_map_fst {β : Type} (l : List (NodeId × β)) (k : NodeId) (v : β) :
    (alistSet l k v).map Prod.fst =
      if k ∈ l.map Prod.fst then l.map Prod.fst else l.map Prod.fst ++ [k] := by
  induction l with
  | nil => simp [alistSet]
  | cons e rest ih =>
    obtain ⟨k1, v1⟩ := e
    unfold alistSet
    by_cases hk : k1 = k
    · subst hk
      rw [if_pos rfl]
      simp
    · rw [if_neg hk]
      simp only [List.map_cons, List.mem_cons]
      rw [ih]
      by_cases hm : k ∈ rest.map Prod.fst
      · rw [if_pos hm, if_pos (Or.inr hm)]
      · rw [if_neg hm, if_neg ?_]
        · simp
        · rintro (h1 | h2)
          · exact hk h1.symm
          · exact hm h2

theorem alistSet_keys_nodup {β : Type} (l : List (NodeId × β)) (k : NodeId) (v : β)
    (h : (l.map Prod.fst).Nodup) : ((alistSet l k v).map Prod.fst).Nodup := by
  rw [alistSet_map_fst]
  by_cases hm : k ∈ l.map Prod.fst
  · rw [if_pos hm]
    exact h
  · rw [if_neg hm]
    rw [List.nodup_append]
    refine ⟨h, List.nodup_singleton k, ?_⟩
    intro a ha hak
    rw [List.mem_singleton] at hak
    exact hm (hak ▸ ha)

theorem putNew_nodupKeys (st : EditorState) (id : NodeId) (snap : NodeSnapshot)
    (h : NodupKeys st) : NodupKeys (putNew st id snap) :=
  alistSet_keys_nodup _ _ _ h

theorem ensure_nodupKeys (st : EditorState) (id : NodeId) (h : NodupKeys st) :
    NodupKeys (ensureNewSnapshot st id).2 := by
  unfold ensureNewSnapshot
  cases ha : alistGet st.newNodes id with
  | some v =>
    cases v with
    | some cur => exact h
    | none => exact alistSet_keys_nodup _ _ _ h
  | none =>
    cases hp : st.parent.getSnapshot id with
    | some p => exact alistSet_keys_nodup _ _ _ h
    | none => exact alistSet_keys_nodup _ _ _ h

theorem setValue_nodupKeys (st : EditorState) (id : NodeId) (path : List PathPart)
    (v : Value) (ie : Bool) (h : NodupKeys st) : NodupKeys (setValue st id path v ie) := by
  unfold setValue
  cases ie
  · exact putNew_nodupKeys _ _ _ (ensure_nodupKeys _ _ h)
  · exact putNew_nodupKeys _ _ _ (ensure_nodupKeys _ _ h)

theorem stAddRef_nodupKeys (st : EditorState) (d : Direction) (o rid : NodeId)
    (p : Option (List PathPart)) (h : NodupKeys st) : NodupKeys (stAddRef st d o rid p) :=
  putNew_nodupKeys _ _ _ (ensure_nodupKeys _ _ h)

theorem stRemoveRef_nodupKeys (st : EditorState) (d : Direction) (o rid : NodeId)
    (p : Option (List PathPart)) (h : NodupKeys st) :
    NodupKeys (stRemoveRef st d o rid p).1 :=
  putNew_nodupKeys _ _ _ (ensure_nodupKeys _ _ h)

theorem stAddRef_getSnapshot_ne (st : EditorState) (d : Direction) (o rid : NodeId)
    (p : Option (List PathPart)) (h : NodeId) (hne : h ≠ o) :
    EditorState.getSnapshot (stAddRef st d o rid p) h = EditorState.getSnapshot st h := by
  unfold stAddRef
  rw [getSnapshot_putNew_ne _ _ _ _ hne, ensure_getSnapshot_ne st o h hne]

theorem stRemoveRef_getSnapshot_ne (st : EditorState) (d : Direction) (o rid : NodeId)
    (p : Option (List PathPart)) (h : NodeId) (hne : h ≠ o) :
    EditorState.getSnapshot (stRemoveRef st d o rid p).1 h =
      EditorState.getSnapshot st h := by
  unfold stRemoveRef
  rw [getSnapshot_putNew_ne _ _ _ _ hne, ensure_getSnapshot_ne st o h hne]

/-! ## Symmetry and orphan-flag preservation of the primitives -/

theorem ensure_symmetric (st : EditorState) (id : NodeId) (hs : SymmetricSt st) :
    SymmetricSt (ensureNewSnapshot st id).2 := by
  intro a b q
  unfold refCountOut refCountIn
  rw [(ensure_view st id a).1, (ensure_view st id b).2.1]
  exact hs a b q

theorem setValue_symmetric (st : EditorState) (id : NodeId) (path : List PathPart)
    (v : Value) (ie : Bool) (hs : SymmetricSt st) :
    SymmetricSt (setValue st id path v ie) := by
  intro a b q
  unfold refCountOut refCountIn
  rw [(setValue_view st id path v ie a).1, (setValue_view st id path v ie b).2.1]
  exact hs a b q

theorem ensure_inboundGone (st : EditorState) (id a : NodeId) (h : InboundGone st a) :
    InboundGone (ensureNewSnapshot st id).2 a := by
  unfold InboundGone at h ⊢
  rw [(ensure_view st id a).2.2]
  exact h

theorem setValue_inboundGone (st : EditorState) (id : NodeId) (path : List PathPart)
    (v : Value) (ie : Bool) (a : NodeId) (h : InboundGone st a) :
    InboundGone (setValue st id path v ie) a := by
  unfold InboundGone at h ⊢
  rw [(setValue_view st id path v ie a).2.2]
  exact h

theorem stAddRef_outb_inboundGone (st : EditorState) (o rid : NodeId)
    (p : Option (List PathPart)) (a : NodeId) (h : InboundGone st a) :
    InboundGone (stAddRef st .outb o rid p) a := by
  unfold InboundGone at h ⊢
  rw [(stAddRef_outb_view st o rid p a).2.2]
  exact h

theorem stAddRef_inb_inboundGone (st : EditorState) (o rid : NodeId)
    (p : Option (List PathPart)) (a : NodeId) (hne : a ≠ o) (h : InboundGone st a) :
    InboundGone (stAddRef st .inb o rid p) a := by
  unfold InboundGone at h ⊢
  rw [(stAddRef_inb_view st o rid p a).2.2 hne]
  exact h

theorem stRemoveRef_outb_inboundGone (st : EditorState) (o rid : NodeId)
    (p : Option (List PathPart)) (a : NodeId) (h : InboundGone st a) :
    InboundGone (stRemoveRef st .outb o rid p).1 a := by
  unfold InboundGone at h ⊢
  rw [(stRemoveRef_outb_view st o rid p a).2.2]
  exact h

theorem stRemoveRef_inb_inboundGone (st : EditorState) (o rid : NodeId)
    (p : Option (List PathPart)) (a : NodeId) (h : InboundGone st a) :
    InboundGone (stRemoveRef st .inb o rid p).1 a :=
  (stRemoveRef_inb_view st o rid p a).2.2 h

/-- Adding the outbound half at the container and the inbound half at the
target (the hookup sequence of `_mergeReferenceEdits` and of the
parameterized-edge branch) preserves edge-count symmetry. -/
theorem addPair_symmetric (st : EditorState) (c n : NodeId) (p : Option (List PathPart))
    (hs : SymmetricSt st) :
    SymmetricSt (stAddRef (stAddRef st .outb c n p) .inb n c p) := by
  intro a b q
  unfold refCountOut refCountIn
  rw [(stAddRef_inb_view (stAddRef st .outb c n p) n c p a).2.1,
    (stAddRef_outb_view st c n p a).1,
    (stAddRef_inb_view (stAddRef st .outb c n p) n c p b).1,
    (stAddRef_outb_view st c n p b).2.1]
  by_cases hac : a = c
  · subst hac
    by_cases hbn : b = n
    · subst hbn
      rw [if_pos rfl, if_pos rfl, count_append_single, count_append_single,
        show (outRefs (st.getSnapshot a)).count (⟨b, q⟩ : NodeReference) =
          (inRefs (st.getSnapshot b)).count (⟨a, q⟩ : NodeReference) from hs a b q]
      congr 1
      by_cases hq : q = p
      · subst hq
        rw [if_pos rfl, if_pos rfl]
      · rw [if_neg (fun hh => hq (congrArg NodeReference.path hh)),
          if_neg (fun hh => hq (congrArg NodeReference.path hh))]
    · rw [if_pos rfl, if_neg hbn, count_append_single,
        if_neg (fun hh => hbn (congrArg NodeReference.id hh)), Nat.add_zero]
      exact hs a b q
  · by_cases hbn : b = n
    · subst hbn
      rw [if_neg hac, if_pos rfl, count_append_single,
        if_neg (fun hh => hac (congrArg NodeReference.id hh)), Nat.add_zero]
      exact hs a b q
    · rw [if_neg hac, if_neg hbn]
      exact hs a b q

/-- Removing the outbound half at the container and then the inbound half at
the previous target (the unhook sequence of `_mergeReferenceEdits`)
preserves edge-count symmetry. -/
theorem removePair_symmetric (st : EditorState) (c prev : NodeId)
    (pp : Option (List PathPart)) (hs : SymmetricSt st) :
    SymmetricSt (stRemoveRef
      (ensureNewSnapshot (stRemoveRef st .outb c prev pp).1 prev).2 .inb prev c pp).1 := by
  intro a b q
  unfold refCountOut refCountIn
  rw [(stRemoveRef_inb_view _ prev c pp a).2.1,
    (ensure_view (stRemoveRef st .outb c prev pp).1 prev a).1,
    (stRemoveRef_outb_view st c prev pp a).1,
    (stRemoveRef_inb_view _ prev c pp b).1,
    (ensure_view (stRemoveRef st .outb c prev pp).1 prev b).2.1,
    (stRemoveRef_outb_view st c prev pp b).2.1]
  by_cases hac : a = c
  · subst hac
    by_cases hbp : b = prev
    · subst hbp
      rw [if_pos rfl, if_pos rfl, removeRef_count, removeRef_count,
        show (outRefs (st.getSnapshot a)).count (⟨b, q⟩ : NodeReference) =
          (inRefs (st.getSnapshot b)).count (⟨a, q⟩ : NodeReference) from hs a b q]
      congr 1
      by_cases hq : q = pp
      · subst hq
        rw [if_pos rfl, if_pos rfl]
      · rw [if_neg (fun hh => hq (congrArg NodeReference.path hh)),
          if_neg (fun hh => hq (congrArg NodeReference.path hh))]
    · rw [if_pos rfl, if_neg hbp, removeRef_count,
        if_neg (fun hh => hbp (congrArg NodeReference.id hh)), Nat.sub_zero]
      exact hs a b q
  · by_cases hbp : b = prev
    · subst hbp
      rw [if_neg hac, if_pos rfl, removeRef_count,
        if_neg (fun hh => hac (congrArg NodeReference.id hh)), Nat.sub_zero]
      exact hs a b q
    · rw [if_neg hac, if_neg hbp]
      exact hs a b q

/-! ## The combined invariant through phase 1 (`_mergePayloadValues`) -/

theorem ensure_good (st : EditorState) (id : NodeId) (h : GoodSt st) :
    GoodSt (ensureNewSnapshot st id).2 :=
  ⟨ensure_symmetric _ _ h.1, ensure_nodupKeys _ _ h.2⟩

theorem setValue_good (st : EditorState) (id : NodeId) (path : List PathPart)
    (v : Value) (ie : Bool) (h : GoodSt st) : GoodSt (setValue st id path v ie) :=
  ⟨setValue_symmetric _ _ _ _ _ h.1, setValue_nodupKeys _ _ _ _ _ h.2⟩

theorem mergeVisitor_good (cfg : Configuration) (qv : List (String × Value))
    (cid : NodeId) (path : List PathPart) (pv nv : Value) (pe : Option EdgeArgs)
    (s : MergeSt) (h : GoodSt s.st) :
    GoodSt (mergeVisitor cfg qv cid path pv nv pe s).2.st := by
  unfold mergeVisitor
  cases pe with
  | some pargs =>
    dsimp only
    split
    · exact ensure_good _ _ h
    · show GoodSt (stAddRef (stAddRef s.st .outb cid
        (nodeIdForParameterizedValue cid path (expandEdgeArguments pargs qv)) none)
        .inb (nodeIdForParameterizedValue cid path (expandEdgeArguments pargs qv)) cid none)
      exact ⟨addPair_symmetric _ _ _ _ h.1,
        stAddRef_nodupKeys _ _ _ _ _ (stAddRef_nodupKeys _ _ _ _ _ h.2)⟩
  | none =>
    dsimp only
    (repeat' split) <;>
      first
        | exact h
        | exact setValue_good _ _ _ _ _ h

theorem mergeLoop_good (cfg : Configuration) (qv : List (String × Value))
    (em : EdgeTree) (fuel : Nat) (s : MergeSt) (h : GoodSt s.st) :
    GoodSt (mergeLoop cfg qv em fuel s).st := by
  induction fuel generalizing s with
  | zero => exact h
  | succ n ih =>
    unfold mergeLoop
    cases hq : s.queue with
    | nil => exact h
    | cons item rest =>
      exact ih _ (walkPayload_preserves (fun ms => GoodSt ms.st)
        (mergeVisitor cfg qv item.containerId)
        (fun path pv nv pe ms hms => mergeVisitor_good cfg qv _ path pv nv pe ms hms)
        item.containerPayload (EditorState.get s.st item.containerId) em item.visitRoot
        { s with queue := rest } h)

theorem mergePayloadValues_good (cfg : Configuration) (qv : List (String × Value))
    (em : EdgeTree) (fuel : Nat) (rootId : NodeId) (payload : Value)
    (st : EditorState) (h : GoodSt st) :
    GoodSt (mergePayloadValues cfg qv em fuel rootId payload st).st :=
  mergeLoop_good cfg qv em fuel _ h

/-! ## The combined invariant through phase 2 (`_mergeReferenceEdits`) -/

theorem insertSet_nodup (s : List NodeId) (id : NodeId) (h : s.Nodup) :
    (insertSet s id).Nodup := by
  unfold insertSet
  split
  · exact h
  · next hm =>
    rw [List.nodup_append]
    exact ⟨h, List.nodup_singleton id,
      fun a ha hak => hm ((List.mem_singleton.mp hak) ▸ ha)⟩

theorem mem_insertSet {s : List NodeId} {id a : NodeId} (h : a ∈ insertSet s id) :
    a ∈ s ∨ a = id := by
  unfold insertSet at h
  split at h
  · exact Or.inl h
  · rcases List.mem_append.mp h with h1 | h2
    · exact Or.inl h1
    · exact Or.inr (List.mem_singleton.mp h2)

/-- The emptied-inbound flag survives the whole unhook sequence of one
reference edit. -/
theorem removeSeq_inboundGone (st : EditorState) (cid prev : NodeId)
    (pp : List PathPart) (tv : Value) (a : NodeId) (h : InboundGone st a) :
    InboundGone (stRemoveRef (ensureNewSnapshot (stRemoveRef
      (ensureNewSnapshot (setValue st cid pp tv true) cid).2 .outb cid prev (some pp)).1
      prev).2 .inb prev cid (some pp)).1 a :=
  stRemoveRef_inb_inboundGone _ _ _ _ _ (ensure_inboundGone _ _ _
    (stRemoveRef_outb_inboundGone _ _ _ _ _ (ensure_inboundGone _ _ _
      (setValue_inboundGone _ _ _ _ _ _ h))))

theorem applyReferenceEdit_good (acc : EditorState × List NodeId) (e : ReferenceEdit)
    (h : GoodAcc acc) : GoodAcc (applyReferenceEdit acc e) := by
  obtain ⟨st0, orph⟩ := acc
  obtain ⟨hgood, hnd, hin⟩ := h
  unfold applyReferenceEdit
  cases hnext : e.nextNodeId with
  | none =>
    cases hprev : e.prevNodeId with
    | none =>
      exact ⟨ensure_good _ _ (setValue_good _ _ _ _ _ hgood), hnd,
        fun a ha => ensure_inboundGone _ _ _ (setValue_inboundGone _ _ _ _ _ _ (hin a ha))⟩
    | some prev =>
      dsimp only
      refine ⟨⟨removePair_symmetric _ _ _ _
          (ensure_good _ _ (setValue_good _ _ _ _ _ hgood)).1,
        stRemoveRef_nodupKeys _ _ _ _ _ (ensure_nodupKeys _ _
          (stRemoveRef_nodupKeys _ _ _ _ _
            (ensure_good _ _ (setValue_good _ _ _ _ _ hgood)).2))⟩, ?_, ?_⟩
      · split
        · exact insertSet_nodup _ _ hnd
        · exact hnd
      · split
        · next hig =>
          intro a ha
          rcases mem_insertSet ha with h1 | h2
          · exact removeSeq_inboundGone _ _ _ _ _ _ (hin a h1)
          · subst h2
            exact Option.isNone_iff_eq_none.mp hig
        · intro a ha
          exact removeSeq_inboundGone _ _ _ _ _ _ (hin a ha)
  | some next =>
    cases hprev : e.prevNodeId with
    | none =>
      dsimp only
      refine ⟨⟨addPair_symmetric _ _ _ _
          (ensure_good _ _ (setValue_good _ _ _ _ _ hgood)).1,
        stAddRef_nodupKeys _ _ _ _ _ (stAddRef_nodupKeys _ _ _ _ _
          (ensure_good _ _ (setValue_good _ _ _ _ _ hgood)).2)⟩,
        List.Nodup.erase next hnd, ?_⟩
      intro a ha
      obtain ⟨hane, ham⟩ := (List.Nodup.mem_erase_iff hnd).mp ha
      exact stAddRef_inb_inboundGone _ _ _ _ _ hane
        (stAddRef_outb_inboundGone _ _ _ _ _
          (ensure_inboundGone _ _ _ (setValue_inboundGone _ _ _ _ _ _ (hin a ham))))
    | some prev =>
      dsimp only
      refine ⟨⟨addPair_symmetric _ _ _ _ (removePair_symmetric _ _ _ _
          (ensure_good _ _ (setValue_good _ _ _ _ _ hgood)).1),
        stAddRef_nodupKeys _ _ _ _ _ (stAddRef_nodupKeys _ _ _ _ _
          (stRemoveRef_nodupKeys _ _ _ _ _ (ensure_nodupKeys _ _
            (stRemoveRef_nodupKeys _ _ _ _ _
              (ensure_good _ _ (setValue_good _ _ _ _ _ hgood)).2))))⟩, ?_, ?_⟩
      · split
        · exact List.Nodup.erase next (insertSet_nodup _ _ hnd)
        · exact List.Nodup.erase next hnd
      · intro a ha
        split at ha
        · next hig =>
          obtain ⟨hane, ham⟩ := (List.Nodup.mem_erase_iff (insertSet_nodup _ _ hnd)).mp ha
          rcases mem_insertSet ham with h1 | h2
          · exact stAddRef_inb_inboundGone _ _ _ _ _ hane
              (stAddRef_outb_inboundGone _ _ _ _ _
                (removeSeq_inboundGone _ _ _ _ _ _ (hin a h1)))
          · subst h2
            exact stAddRef_inb_inboundGone _ _ _ _ _ hane
              (stAddRef_outb_inboundGone _ _ _ _ _ (Option.isNone_iff_eq_none.mp hig))
        · next hig =>
          obtain ⟨hane, ham⟩ := (List.Nodup.mem_erase_iff hnd).mp ha
          exact stAddRef_inb_inboundGone _ _ _ _ _ hane
            (stAddRef_outb_inboundGone _ _ _ _ _
              (removeSeq_inboundGone _ _ _ _ _ _ (hin a ham)))

theorem mergeReferenceEdits_good (st : EditorState) (edits : List ReferenceEdit)
    (h : GoodSt st) : GoodAcc (mergeReferenceEdits st edits) := by
  unfold mergeReferenceEdits
  suffices hf : ∀ acc, GoodAcc acc → GoodAcc (edits.foldl applyReferenceEdit acc) from
    hf (st, []) ⟨h, List.nodup_nil, fun a ha => absurd ha (List.not_mem_nil a)⟩
  induction edits with
  | nil => intro acc ha; exact ha
  | cons e rest ih =>
    intro acc ha
    rw [List.foldl_cons]
    exact ih _ (applyReferenceEdit_good acc e ha)

/-! ## The combined invariant through phase 3 (`_rebuildInboundReferences`) -/

theorem rebuildStep_good (node : Value) (init : EditorState × List NodeId)
    (inbound : List NodeReference) (h : GoodSt init.1) :
    GoodSt (rebuildStep node init inbound).1 := by
  induction inbound generalizing init with
  | nil => exact h
  | cons r rest ih =>
    unfold rebuildStep
    rw [List.foldl_cons]
    show GoodSt (rebuildStep node _ rest).1
    apply ih
    cases r.path
    · exact h
    · dsimp only
      split
      · exact setValue_good _ _ _ _ _ h
      · exact setValue_good _ _ _ _ _ h

theorem rebuildStep_inboundGone (node : Value) (init : EditorState × List NodeId)
    (inbound : List NodeReference) (a : NodeId) (h : InboundGone init.1 a) :
    InboundGone (rebuildStep node init inbound).1 a := by
  induction inbound generalizing init with
  | nil => exact h
  | cons r rest ih =>
    unfold rebuildStep
    rw [List.foldl_cons]
    show InboundGone (rebuildStep node _ rest).1 a
    apply ih
    cases r.path
    · exact h
    · dsimp only
      split
      · exact setValue_inboundGone _ _ _ _ _ _ h
      · exact setValue_inboundGone _ _ _ _ _ _ h

theorem rebuildLoop_good (fuel : Nat) (st : EditorState) (queue : List NodeId)
    (h : GoodSt st) : GoodSt (rebuildLoop fuel st queue).1 := by
  induction fuel generalizing st queue with
  | zero => exact h
  | succ n ih =>
    unfold rebuildLoop
    cases queue with
    | nil => exact h
    | cons nodeId rest =>
      dsimp only
      cases hg : EditorState.getSnapshot st nodeId with
      | none => simp only [hg]; exact ih st rest h
      | some snapshot =>
        simp only [hg]
        cases hi : snapshot.inbound with
        | none => simp only [hi]; exact ih st rest h
        | some inbound =>
          simp only [hi]
          exact ih _ _ (rebuildStep_good _ _ _ h)

theorem rebuildLoop_inboundGone (fuel : Nat) (st : EditorState) (queue : List NodeId)
    (a : NodeId) (h : InboundGone st a) : InboundGone (rebuildLoop fuel st queue).1 a := by
  induction fuel generalizing st queue with
  | zero => exact h
  | succ n ih =>
    unfold rebuildLoop
    cases queue with
    | nil => exact h
    | cons nodeId rest =>
      dsimp only
      cases hg : EditorState.getSnapshot st nodeId with
      | none => simp only [hg]; exact ih st rest h
      | some snapshot =>
        simp only [hg]
        cases hi : snapshot.inbound with
        | none => simp only [hi]; exact ih st rest h
        | some inbound =>
          simp only [hi]
          exact ih _ _ (rebuildStep_inboundGone _ _ _ _ h)

theorem rebuildInboundReferences_good (fuel : Nat) (st : EditorState) (h : GoodSt st) :
    GoodSt (rebuildInboundReferences fuel st).1 := by
  unfold rebuildInboundReferences
  exact rebuildLoop_good _ _ _ h

theorem rebuildInboundReferences_inboundGone (fuel : Nat) (st : EditorState) (a : NodeId)
    (h : InboundGone st a) : InboundGone (rebuildInboundReferences fuel st).1 a := by
  unfold rebuildInboundReferences
  exact rebuildLoop_inboundGone _ _ _ _ h

/-! ## The combined invariant through phase 4 (`_removeOrphanedNodes`) -/

theorem count_cons_ref (r x : NodeReference) (l : List NodeReference) :
    (r :: l).count x = l.count x + (if x = r then 1 else 0) := by
  by_cases hx : x = r
  · subst hx
    simp [List.count_cons]
  · simp [List.count_cons, hx]

theorem tomb_getSnapshot_self (st : EditorState) (id : NodeId) :
    EditorState.getSnapshot { st with
      newNodes := alistSet st.newNodes id none,
      editedNodeIds := insertSet st.editedNodeIds id } id = none := by
  unfold EditorState.getSnapshot
  dsimp only
  rw [alistGet_set_self]

theorem tomb_getSnapshot_ne (st : EditorState) (id h : NodeId) (hne : h ≠ id) :
    EditorState.getSnapshot { st with
      newNodes := alistSet st.newNodes id none,
      editedNodeIds := insertSet st.editedNodeIds id } h =
      EditorState.getSnapshot st h := by
  unfold EditorState.getSnapshot
  dsimp only
  rw [alistGet_set_ne _ _ _ _ (Ne.symm hne)]

/-- The sweep over a tombstoned node's outbound list restores edge-count
symmetry: starting from a state where `id` is gone and every remaining
asymmetry is accounted for by the unprocessed suffix `l` of the outbound
list, the fold ends with `id` gone, no inbound references to `id` anywhere,
symmetry among the other nodes, and only emptied-inbound nodes scheduled. -/
theorem orphanSweep_inv (id : NodeId) (l : List NodeReference) :
    ∀ acc : EditorState × List NodeId,
      EditorState.getSnapshot acc.1 id = none →
      NodupKeys acc.1 →
      (∀ h t p, h ≠ id → refCountOut acc.1 h ⟨t, p⟩ = refCountIn acc.1 t ⟨h, p⟩) →
      (∀ t p, refCountIn acc.1 t ⟨id, p⟩ = l.count ⟨t, p⟩) →
      (∀ a ∈ acc.2, InboundGone acc.1 a) →
      EditorState.getSnapshot (l.foldl (orphanSweepStep id) acc).1 id = none ∧
      NodupKeys (l.foldl (orphanSweepStep id) acc).1 ∧
      (∀ h t p, h ≠ id →
        refCountOut (l.foldl (orphanSweepStep id) acc).1 h ⟨t, p⟩ =
          refCountIn (l.foldl (orphanSweepStep id) acc).1 t ⟨h, p⟩) ∧
      (∀ t p, refCountIn (l.foldl (orphanSweepStep id) acc).1 t ⟨id, p⟩ = 0) ∧
      (∀ a ∈ (l.foldl (orphanSweepStep id) acc).2,
        InboundGone (l.foldl (orphanSweepStep id) acc).1 a) := by
  induction l with
  | nil =>
    intro acc hA hN hB hC hD
    exact ⟨hA, hN, hB, fun t p => hC t p, hD⟩
  | cons r rest ih =>
    intro acc hA hN hB hC hD
    obtain ⟨rid, rp⟩ := r
    rw [List.foldl_cons]
    have hrne : rid ≠ id := by
      intro hh
      have h0 : refCountIn acc.1 rid ⟨id, rp⟩ = 0 := by
        unfold refCountIn
        rw [hh, hA]
        rfl
      have h1 := hC rid rp
      rw [count_cons_ref] at h1
      rw [if_pos (rfl : (⟨rid, rp⟩ : NodeReference) = ⟨rid, rp⟩)] at h1
      rw [h0] at h1
      omega
    have hfst : (orphanSweepStep id acc ⟨rid, rp⟩).1 = (stRemoveRef acc.1 .inb rid id rp).1 := by
      unfold orphanSweepStep
      dsimp only
      split <;> rfl
    have hA1 : EditorState.getSnapshot (orphanSweepStep id acc ⟨rid, rp⟩).1 id = none := by
      rw [hfst, stRemoveRef_getSnapshot_ne _ _ _ _ _ _ (Ne.symm hrne)]
      exact hA
    have hN1 : NodupKeys (orphanSweepStep id acc ⟨rid, rp⟩).1 := by
      rw [hfst]
      exact stRemoveRef_nodupKeys _ _ _ _ _ hN
    have hB1 : ∀ h t p, h ≠ id →
        refCountOut (orphanSweepStep id acc ⟨rid, rp⟩).1 h ⟨t, p⟩ =
          refCountIn (orphanSweepStep id acc ⟨rid, rp⟩).1 t ⟨h, p⟩ := by
      intro h t p hne
      rw [hfst]
      unfold refCountOut refCountIn
      rw [(stRemoveRef_inb_view acc.1 rid id rp h).2.1,
        (stRemoveRef_inb_view acc.1 rid id rp t).1]
      by_cases ht : t = rid
      · subst ht
        rw [if_pos rfl, removeRef_count,
          if_neg (fun hh => hne (congrArg NodeReference.id hh)), Nat.sub_zero]
        exact hB h t p hne
      · rw [if_neg ht]
        exact hB h t p hne
    have hC1 : ∀ t p, refCountIn (orphanSweepStep id acc ⟨rid, rp⟩).1 t ⟨id, p⟩ =
        rest.count ⟨t, p⟩ := by
      intro t p
      rw [hfst]
      unfold refCountIn
      rw [(stRemoveRef_inb_view acc.1 rid id rp t).1]
      have hc := hC t p
      rw [count_cons_ref] at hc
      by_cases ht : t = rid
      · subst ht
        rw [if_pos rfl, removeRef_count]
        rw [show (inRefs (EditorState.getSnapshot acc.1 t)).count (⟨id, p⟩ : NodeReference) =
          rest.count ⟨t, p⟩ +
            (if (⟨t, p⟩ : NodeReference) = ⟨t, rp⟩ then 1 else 0) from hc]
        by_cases hp : p = rp
        · subst hp
          rw [if_pos rfl, if_pos rfl]
          omega
        · rw [if_neg (fun hh => hp (congrArg NodeReference.path hh)),
            if_neg (fun hh => hp (congrArg NodeReference.path hh))]
          omega
      · rw [if_neg ht]
        rw [show (inRefs (EditorState.getSnapshot acc.1 t)).count (⟨id, p⟩ : NodeReference) =
          rest.count ⟨t, p⟩ +
            (if (⟨t, p⟩ : NodeReference) = ⟨rid, rp⟩ then 1 else 0) from hc]
        rw [if_neg (fun hh => ht (congrArg NodeReference.id hh))]
        omega
    have hD1 : ∀ a ∈ (orphanSweepStep id acc ⟨rid, rp⟩).2,
        InboundGone (orphanSweepStep id acc ⟨rid, rp⟩).1 a := by
      unfold orphanSweepStep
      dsimp only
      split
      · next hemp =>
        intro a ha
        rcases List.mem_cons.mp ha with h1 | h2
        · rw [h1]
          exact stRemoveRef_inb_emptied acc.1 rid id rp hemp
        · exact stRemoveRef_inb_inboundGone _ _ _ _ _ (hD a h2)
      · intro a ha
        exact stRemoveRef_inb_inboundGone _ _ _ _ _ (hD a ha)
    exact ih (orphanSweepStep id acc ⟨rid, rp⟩) hA1 hN1 hB1 hC1 hD1

theorem removeOrphanLoop_good (fuel : Nat) :
    ∀ (st : EditorState) (queue : List NodeId),
      GoodSt st → (∀ a ∈ queue, InboundGone st a) →
      GoodSt (removeOrphanLoop fuel st queue).1 := by
  induction fuel with
  | zero => intro st queue hg _; exact hg
  | succ n ih =>
    intro st queue hg hq
    unfold removeOrphanLoop
    cases queue with
    | nil => exact hg
    | cons nodeId rest =>
      dsimp only
      cases hgs : EditorState.getSnapshot st nodeId with
      | none =>
        simp only [hgs]
        exact ih st rest hg (fun a ha => hq a (List.mem_cons_of_mem _ ha))
      | some node =>
        simp only [hgs]
        have hib : node.inbound = none := by
          have h0 := hq nodeId (List.mem_cons_self _ _)
          unfold InboundGone at h0
          rw [hgs] at h0
          exact h0
        have hzero_in : ∀ h p, refCountIn st nodeId ⟨h, p⟩ = 0 := by
          intro h p
          unfold refCountIn
          rw [hgs]
          show ((node.inbound.getD [] : List NodeReference)).count _ = 0
          rw [hib]
          rfl
        have htombA : EditorState.getSnapshot { st with
            newNodes := alistSet st.newNodes nodeId none,
            editedNodeIds := insertSet st.editedNodeIds nodeId } nodeId = none :=
          tomb_getSnapshot_self st nodeId
        have htombN : NodupKeys { st with
            newNodes := alistSet st.newNodes nodeId none,
            editedNodeIds := insertSet st.editedNodeIds nodeId } :=
          alistSet_keys_nodup _ _ _ hg.2
        have htombD : ∀ a ∈ rest, InboundGone { st with
            newNodes := alistSet st.newNodes nodeId none,
            editedNodeIds := insertSet st.editedNodeIds nodeId } a := by
          intro a ha
          by_cases haid : a = nodeId
          · unfold InboundGone
            rw [haid, tomb_getSnapshot_self]
            rfl
          · unfold InboundGone
            rw [tomb_getSnapshot_ne st nodeId a haid]
            exact hq a (List.mem_cons_of_mem _ ha)
        have htombB : ∀ h t p, h ≠ nodeId →
            refCountOut { st with
              newNodes := alistSet st.newNodes nodeId none,
              editedNodeIds := insertSet st.editedNodeIds nodeId } h ⟨t, p⟩ =
            refCountIn { st with
              newNodes := alistSet st.newNodes nodeId none,
              editedNodeIds := insertSet st.editedNodeIds nodeId } t ⟨h, p⟩ := by
          intro h t p hne
          unfold refCountOut refCountIn
          rw [tomb_getSnapshot_ne st nodeId h hne]
          by_cases ht : t = nodeId
          · rw [ht, tomb_getSnapshot_self]
            have h1 := hg.1 h nodeId p
            rw [hzero_in h p] at h1
            exact h1
          · rw [tomb_getSnapshot_ne st nodeId t ht]
            exact hg.1 h t p
        cases ho : node.outbound with
        | none =>
          simp only [ho]
          have hout : outRefs (some node) = ([] : List NodeReference) := by
            show node.outbound.getD [] = []
            rw [ho]
            rfl
          have hsymm0 : SymmetricSt { st with
              newNodes := alistSet st.newNodes nodeId none,
              editedNodeIds := insertSet st.editedNodeIds nodeId } := by
            intro a b p
            by_cases ha : a = nodeId
            · rw [ha]
              unfold refCountOut refCountIn
              rw [tomb_getSnapshot_self]
              by_cases hb : b = nodeId
              · rw [hb, tomb_getSnapshot_self]
                rfl
              · rw [tomb_getSnapshot_ne st nodeId b hb]
                have h1 := hg.1 nodeId b p
                unfold refCountOut refCountIn at h1
                rw [hgs, hout] at h1
                rw [← h1]
                rfl
            · unfold refCountOut refCountIn
              rw [tomb_getSnapshot_ne st nodeId a ha]
              by_cases hb : b = nodeId
              · rw [hb, tomb_getSnapshot_self]
                have h1 := hg.1 a nodeId p
                rw [hzero_in a p] at h1
                exact h1
              · rw [tomb_getSnapshot_ne st nodeId b hb]
                exact hg.1 a b p
          exact ih _ rest ⟨hsymm0, htombN⟩ htombD
        | some outbound =>
          simp only [ho]
          have hout : outRefs (some node) = outbound := by
            show node.outbound.getD [] = outbound
            rw [ho]
            rfl
          have htombC : ∀ t p, refCountIn { st with
              newNodes := alistSet st.newNodes nodeId none,
              editedNodeIds := insertSet st.editedNodeIds nodeId } t ⟨nodeId, p⟩ =
              outbound.count ⟨t, p⟩ := by
            intro t p
            unfold refCountIn
            by_cases ht : t = nodeId
            · rw [ht, tomb_getSnapshot_self]
              have h1 := hg.1 nodeId nodeId p
              rw [hzero_in nodeId p] at h1
              unfold refCountOut at h1
              rw [hgs, hout] at h1
              rw [h1]
              rfl
            · rw [tomb_getSnapshot_ne st nodeId t ht]
              have h1 := hg.1 nodeId t p
              unfold refCountOut refCountIn at h1
              rw [hgs, hout] at h1
              exact h1.symm
          obtain ⟨hA1, hN1, hB1, hC1, hD1⟩ := orphanSweep_inv nodeId outbound
            ({ st with
              newNodes := alistSet st.newNodes nodeId none,
              editedNodeIds := insertSet st.editedNodeIds nodeId }, rest)
            htombA htombN htombB htombC htombD
          have hsymm : SymmetricSt (outbound.foldl (orphanSweepStep nodeId)
              ({ st with
                newNodes := alistSet st.newNodes nodeId none,
                editedNodeIds := insertSet st.editedNodeIds nodeId }, rest)).1 := by
            intro a b p
            by_cases ha : a = nodeId
            · rw [ha]
              unfold refCountOut
              rw [hA1, hC1 b p]
              rfl
            · exact hB1 a b p ha
          exact ih _ _ ⟨hsymm, hN1⟩ hD1

theorem removeOrphanedNodes_good (fuel : Nat) (st : EditorState) (ids : List NodeId)
    (hg : GoodSt st) (hids : ∀ a ∈ ids, InboundGone st a) :
    GoodSt (removeOrphanedNodes fuel st ids).1 := by
  unfold removeOrphanedNodes
  exact removeOrphanLoop_good fuel st ids.reverse hg
    (fun a ha => hids a (List.mem_reverse.mp ha))

/-! ## Whole-transaction preservation and the committed invariant -/

theorem mergePayload_good (cfg : Configuration) (em : EdgeTree)
    (qv : List (String × Value)) (fuel : Nat) (rootId : NodeId) (payload : Value)
    (st : EditorState) (hg : GoodSt st) :
    GoodSt (mergePayload cfg em qv fuel rootId payload st) := by
  unfold mergePayload
  have h1 := mergePayloadValues_good cfg qv em fuel rootId payload st hg
  have h2 := mergeReferenceEdits_good _
    (mergePayloadValues cfg qv em fuel rootId payload st).edits h1
  exact removeOrphanedNodes_good fuel _ _
    (rebuildInboundReferences_good fuel _ h2.1)
    (fun a ha => rebuildInboundReferences_inboundGone fuel _ a (h2.2.2 a ha))

theorem mergeAll_good (cfg : Configuration) (fuel : Nat) (specs : List MergeSpec)
    (st : EditorState) (hg : GoodSt st) : GoodSt (mergeAll cfg fuel specs st) := by
  unfold mergeAll
  induction specs generalizing st with
  | nil => exact hg
  | cons m rest ih =>
    rw [List.foldl_cons]
    exact ih _ (mergePayload_good _ _ _ _ _ _ _ hg)

theorem init_good (parent : GraphSnapshot) (h : SymmetricG parent) :
    GoodSt (EditorState.init parent) := by
  constructor
  · intro a b p
    exact h a b p
  · exact List.nodup_nil

/-- **C2.** Bidirectional reference symmetry (graph invariant 2): starting
from a baseline snapshot in which every edge {head, target, path} occurs in
the head's outbound list exactly as often as in the target's inbound list,
any sequence of `mergePayload` transactions — at any fuel — commits to a
snapshot that satisfies the same symmetry, with multiplicity. -/
theorem commit_preserves_bidirectional_symmetry (cfg : Configuration) (fuel : Nat)
    (specs : List MergeSpec) (parent : GraphSnapshot) (hsym : SymmetricG parent) :
    SymmetricG (commit (mergeAll cfg fuel specs (EditorState.init parent))).snapshot := by
  have hg := mergeAll_good cfg fuel specs (EditorState.init parent) (init_good parent hsym)
  intro a b p
  unfold refCountOutG refCountInG
  rw [commit_getSnapshot _ hg.2 a, commit_getSnapshot _ hg.2 b]
  exact hg.1 a b p

/-- Witness: the symmetry theorem at a concrete input — the scenario-S1
parameterized write against the empty baseline, whose trivial symmetry
discharges the hypothesis. -/
theorem commit_preserves_bidirectional_symmetry_witness :
    SymmetricG (commit (mergeAll testConfig 10 [⟨s1EdgeMap, s1Vars, QueryRootId, s1Payload⟩]
      (EditorState.init GraphSnapshot.empty))).snapshot :=
  commit_preserves_bidirectional_symmetry testConfig 10
    [⟨s1EdgeMap, s1Vars, QueryRootId, s1Payload⟩] GraphSnapshot.empty
    (fun h t p => rfl)

/-- **C9.** The inbound-rebuild walk terminates on every finite state,
including cyclic reference graphs: whenever the fuel is at least the
measure (unrebuilt ids of a universe bounding the state's reference lists,
plus the queue length), the work queue is popped to empty; and each id is
inserted into `rebuiltNodeIds` at the moment it is enqueued and is never
enqueued a second time (the queue stays duplicate-free and inside
`rebuiltNodeIds`). -/
theorem rebuild_walk_terminates :
    (∀ (fuel : Nat) (st : EditorState) (q : List NodeId) (U : Finset NodeId),
      RefsBounded st U → rebuildMeasure st U q ≤ fuel →
      (rebuildLoop fuel st q).2 = []) ∧
    (∀ (node : Value) (init : EditorState × List NodeId) (inbound : List NodeReference),
      (∀ x ∈ init.2, x ∈ init.1.rebuiltNodeIds) → init.2.Nodup →
      (∀ x ∈ (rebuildStep node init inbound).2,
        x ∈ (rebuildStep node init inbound).1.rebuiltNodeIds) ∧
      (rebuildStep node init inbound).2.Nodup) :=
  ⟨rebuildLoop_completes, fun node init inbound hsub hnd =>
    rebuildStep_queue_invariant node inbound init hsub hnd⟩

/-- Witness for C9: on the two-node reference cycle `A ↔ B` the rebuild
loop runs to completion (empty remaining queue) with fuel 5. -/
theorem rebuild_walk_terminates_witness :
    rebuildMeasure cyc (insert "A" {"B"}) ["A"] ≤ 5 ∧
    (rebuildLoop 5 cyc ["A"]).2 = [] := by
  constructor
  · decide
  · refine rebuild_walk_terminates.1 5 cyc ["A"] (insert "A" {"B"}) ?_ (by decide)
    intro id s hget x hx
    by_cases h1 : id = "A"
    · subst h1
      rw [show EditorState.getSnapshot cyc "A" =
        some ⟨.vObj [("x", .vInt 1)], some [⟨"B", some [.field "a"]⟩],
          some [⟨"B", some [.field "b"]⟩]⟩ from rfl] at hget
      injection hget with h
      subst h
      rw [show snapIds (⟨.vObj [("x", .vInt 1)], some [⟨"B", some [.field "a"]⟩],
        some [⟨"B", some [.field "b"]⟩]⟩ : NodeSnapshot) = ["B", "B"] from rfl] at hx
      simp only [List.mem_cons, List.not_mem_nil, or_false, or_self] at hx
      subst hx
      decide
    · by_cases h2 : id = "B"
      · subst h2
        rw [show EditorState.getSnapshot cyc "B" =
          some ⟨.vObj [("y", .vInt 2)], some [⟨"A", some [.field "b"]⟩],
            some [⟨"A", some [.field "a"]⟩]⟩ from rfl] at hget
        injection hget with h
        subst h
        rw [show snapIds (⟨.vObj [("y", .vInt 2)], some [⟨"A", some [.field "b"]⟩],
          some [⟨"A", some [.field "a"]⟩]⟩ : NodeSnapshot) = ["A", "A"] from rfl] at hx
        simp only [List.mem_cons, List.not_mem_nil, or_false, or_self] at hx
        subst hx
        decide
      · exfalso
        rw [show EditorState.getSnapshot cyc id = alistGet cyc.parent.values id from rfl] at hget
        rw [show cyc.parent.values =
          [("A", (⟨.vObj [("x", .vInt 1)], some [⟨"B", some [.field "a"]⟩],
            some [⟨"B", some [.field "b"]⟩]⟩ : NodeSnapshot)),
           ("B", ⟨.vObj [("y", .vInt 2)], some [⟨"A", some [.field "b"]⟩],
            some [⟨"A", some [.field "a"]⟩]⟩)] from rfl] at hget
        simp only [alistGet] at hget
        rw [if_neg (fun hh => h1 hh.symm), if_neg (fun hh => h2 hh.symm)] at hget
        exact Option.noConfusion hget

end Hermes
